import Mathlib

/-!
Verification of the axle-annotation toolkit: a shallow embedding of
`merge_axle_tree.py` (box grouping) and `evaluate_perf.py` (detection
evaluation), with theorems settling the specification claims.

Modelling conventions:
* Python floats are modelled by exact rationals (`ℚ`).
* Python's stable `sorted`/`list.sort` is modelled by a stable insertion
  sort by a rational key (`keySort`); stability makes the result unique,
  so any stable sorting algorithm yields the same list.
* Python `dict` comprehensions are modelled by association lists where a
  later entry for the same key wins on lookup (`dictGet`).
* Code that can raise `KeyError` (direct `region["score"]` access) is
  modelled in the `Except Unit` monad.
* `shapely` box intersection/union areas are modelled by the standard
  axis-aligned rectangle formulas, the exact geometric semantics for
  boxes with `xmin ≤ xmax` and `ymin ≤ ymax`.
-/

/-- Axis-aligned bounding box, the `{'xmin','ymin','xmax','ymax'}` dicts of the code. -/
structure Box where
  xmin : ℚ
  ymin : ℚ
  xmax : ℚ
  ymax : ℚ
deriving DecidableEq, Repr

/-- Stable insertion of `a` into `m` by rational key `k`: `a` goes before the
first element whose key is not smaller, matching Python stable-sort tie order. -/
def keyInsert {α : Type} (k : α → ℚ) (a : α) : List α → List α
  | [] => [a]
  | b :: l => if k b < k a then b :: keyInsert k a l else a :: b :: l

/-- Stable ascending sort by rational key `k`; models Python `sorted(l, key=k)`.
Descending sorts (`reverse=True`) are modelled by negating the key. -/
def keySort {α : Type} (k : α → ℚ) : List α → List α
  | [] => []
  | a :: l => keyInsert k a (keySort k l)

/-- Inner scan of `merge_boxes` (the `for j in range(i+1, ...)` loop): given the
not-yet-consumed boxes after the seed and the current group envelope `cur`,
returns (boxes absorbed into the group, boxes left unconsumed, final envelope). -/
def absorb (t : ℚ) : List Box → ℚ → List Box × List Box × ℚ
  | [], cur => ([], [], cur)
  | b :: rest, cur =>
    if b.xmin ≤ cur + t then
      let r := absorb t rest (max cur b.xmax)
      (b :: r.1, r.2.1, r.2.2)
    else
      let r := absorb t rest cur
      (r.1, b :: r.2.1, r.2.2)

/-- Outer loop of `merge_boxes`: repeatedly seed a group with the first
unconsumed box (in sorted order) and absorb every later box whose `xmin` is
within `t` of the group's running maximum `xmax`. Returns the list of groups
in seed order. -/
def mergeGroups (t : ℚ) : List Box → List (List Box)
  | [] => []
  | b :: rest =>
    let r := absorb t rest b.xmax
    (b :: r.1) :: mergeGroups t r.2.1
termination_by l => l.length
decreasing_by
  have h : ∀ (l : List Box) (cur : ℚ), (absorb t l cur).2.1.length ≤ l.length := by
    intro l
    induction l with
    | nil => intro _; simp [absorb]
    | cons c cs ih =>
      intro cur
      simp only [absorb]
      split
      · exact Nat.le_succ_of_le (ih _)
      · simpa using ih cur
  exact Nat.lt_succ_of_le (h rest b.xmax)

/-- Fold computing the minimum of key `f` over a list of boxes, seeded at `a`. -/
def foldMin (f : Box → ℚ) (a : ℚ) (l : List Box) : ℚ :=
  l.foldl (fun m c => min m (f c)) a

/-- Fold computing the maximum of key `f` over a list of boxes, seeded at `a`. -/
def foldMax (f : Box → ℚ) (a : ℚ) (l : List Box) : ℚ :=
  l.foldl (fun m c => max m (f c)) a

/-- Bounding envelope of a group of boxes: coordinatewise min of mins and max of
maxs, as built by `merge_boxes` for groups of size at least two. The `[]` case
is arbitrary (groups are never empty). -/
def envelopeBox : List Box → Box
  | [] => { xmin := 0, ymin := 0, xmax := 0, ymax := 0 }
  | b :: g =>
    { xmin := foldMin Box.xmin b.xmin g
      ymin := foldMin Box.ymin b.ymin g
      xmax := foldMax Box.xmax b.xmax g
      ymax := foldMax Box.ymax b.ymax g }

/-- Body of `merge_boxes` for a single image: sort by `xmin` (stable), sweep
into groups, emit envelopes of groups with `> 1` member as `grouped_axles` and
the members of singleton groups, in ascending seed order, as `single_axle`. -/
def merge_boxes_image (t : ℚ) (boxes : List Box) : List Box × List Box :=
  let sortedBoxes := keySort Box.xmin boxes
  let groups := mergeGroups t sortedBoxes
  ((groups.filter (fun g => decide (2 ≤ g.length))).map envelopeBox,
    (groups.filter (fun g => decide (g.length = 1))).flatten)

/-- `merge_boxes`: processes every image of the input map independently.
The Python dict is modelled as an association list in iteration order. -/
def merge_boxes (m : List (String × List Box)) (t : ℚ) :
    List (String × (List Box × List Box)) :=
  m.map (fun e => (e.1, merge_boxes_image t e.2))

/-- Growing-envelope chain condition of the spec: each successive box's `xmin`
is within `t` of the running maximum `xmax` of everything absorbed so far. -/
def envChain (t : ℚ) : ℚ → List Box → Prop
  | _, [] => True
  | cur, b :: l => b.xmin ≤ cur + t ∧ envChain t (max cur b.xmax) l

/-- Region of an annotated image: a box plus an optional confidence score
(`score` is absent on ground-truth regions and may be absent on malformed
prediction regions; `none` models a missing `"score"` key). Tags and
`region_type` play no role in the evaluation code and are omitted. -/
structure Region where
  region : Box
  score : Option ℚ
deriving DecidableEq, Repr

/-- Image of a document: a `location` identifier and its list of regions. -/
structure Image where
  location : String
  annotated_regions : List Region
deriving DecidableEq, Repr

/-- Annotation document: a list of images, the `{'images': [...]}` JSON. -/
structure Doc where
  images : List Image
deriving DecidableEq, Repr

/-- `calculate_iou`: intersection-over-union of two boxes via the rectangle
area formulas (the exact semantics of the shapely computation for boxes with
`xmin ≤ xmax`, `ymin ≤ ymax`), with the zero-union guard of the code. -/
def calculate_iou (b1 b2 : Box) : ℚ :=
  let interW := min b1.xmax b2.xmax - max b1.xmin b2.xmin
  let interH := min b1.ymax b2.ymax - max b1.ymin b2.ymin
  let interArea := max interW 0 * max interH 0
  let area1 := (b1.xmax - b1.xmin) * (b1.ymax - b1.ymin)
  let area2 := (b2.xmax - b2.xmin) * (b2.ymax - b2.ymin)
  let unionArea := area1 + area2 - interArea
  if unionArea = 0 then 0 else interArea / unionArea

/-- Prediction filter of `evaluate_image` (lines 113-115): keep regions with
`region.get("score", 0) >= threshold`, then build `(region, region["score"])`;
the direct `["score"]` access raises (here: `Except.error`) when a region that
passed the `get`-filter has no score, which happens exactly when the missing
score's default `0` passes the threshold. -/
def filterPreds (t : ℚ) : List Region → Except Unit (List (Box × ℚ))
  | [] => .ok []
  | r :: rest =>
    match r.score with
    | none => if t ≤ 0 then .error () else filterPreds t rest
    | some s =>
      if t ≤ s then
        match filterPreds t rest with
        | .error e => .error e
        | .ok l => .ok ((r.region, s) :: l)
      else filterPreds t rest

/-- Ground-truth boxes paired with their list index, as `enumerate(gt_boxes)`. -/
def withIdx (n : ℕ) : List Box → List (ℕ × Box)
  | [] => []
  | b :: l => (n, b) :: withIdx (n + 1) l

/-- Inner loop of `evaluate_image` (lines 128-140): scan the indexed
ground-truth boxes, skip already-matched indices, and keep the first index at
which the IoU strictly exceeds the running best, starting from `(0, None)`. -/
def bestMatch (pre : Box) (matched : List (Option ℕ)) :
    List (ℕ × Box) → ℚ × Option ℕ → ℚ × Option ℕ
  | [], acc => acc
  | p :: rest, acc =>
    if some p.1 ∈ matched then bestMatch pre matched rest acc
    else if acc.1 < calculate_iou pre p.2 then
      bestMatch pre matched rest (calculate_iou pre p.2, some p.1)
    else bestMatch pre matched rest acc

/-- Mutable state of the matching loop of `evaluate_image`: the three counters
and the `matched_gt` set (a list of the added elements; the code can add
`None` to the Python set, hence `Option ℕ` members). Counters are integers
because `false_negatives` is decremented and can in principle go negative. -/
structure MatchState where
  tp : ℤ
  fn : ℤ
  fp : ℤ
  matched : List (Option ℕ)
deriving DecidableEq, Repr

/-- Body of the `for pred, _ in pred_boxes` loop of `evaluate_image`
(lines 128-148): find the best unmatched ground truth, then count a true
positive (marking the index matched, decrementing FN) when its IoU reaches
`Jaccard_min` and the index is not yet matched, a false positive otherwise. -/
def matchStep (gts : List (ℕ × Box)) (jmin : ℚ) (s : MatchState) (pre : Box) :
    MatchState :=
  let best := bestMatch pre s.matched gts (0, none)
  if jmin ≤ best.1 ∧ best.2 ∉ s.matched then
    { tp := s.tp + 1, fn := s.fn - 1, fp := s.fp, matched := best.2 :: s.matched }
  else
    { tp := s.tp, fn := s.fn, fp := s.fp + 1, matched := s.matched }

/-- Matching loop of `evaluate_image` over the sorted filtered predictions. -/
def matchFold (gts : List (ℕ × Box)) (jmin : ℚ) :
    MatchState → List (Box × ℚ) → MatchState
  | s, [] => s
  | s, p :: rest => matchFold gts jmin (matchStep gts jmin s p.1) rest

/-- Final `(TP, FN, FP)` triple read off the matching-loop state. -/
def stateTriple (s : MatchState) : ℤ × ℤ × ℤ := (s.tp, s.fn, s.fp)

/-- Count computation of `evaluate_image` after the prediction filter: the
empty-list short-circuit (lines 118-120) returning `(0, |gt|, |preds|)`, else
the greedy matching loop over the already score-sorted predictions. -/
def evalCounts (gt_boxes : List Box) (pred_boxes : List (Box × ℚ)) (jmin : ℚ) :
    ℤ × ℤ × ℤ :=
  if gt_boxes.length = 0 ∨ pred_boxes.length = 0 then
    (0, (gt_boxes.length : ℤ), (pred_boxes.length : ℤ))
  else
    stateTriple (matchFold (withIdx 0 gt_boxes) jmin
      { tp := 0, fn := (gt_boxes.length : ℤ), fp := 0, matched := [] } pred_boxes)

/-- `evaluate_image`: extract ground-truth boxes, filter and score-sort the
predictions (descending, stable), short-circuit when either list is empty,
else run the greedy matching loop. Returns `(TP, FN, FP)`. -/
def evaluate_image (anns preds : Image) (t jmin : ℚ) :
    Except Unit (ℤ × ℤ × ℤ) :=
  match filterPreds t preds.annotated_regions with
  | .error e => .error e
  | .ok fl =>
    .ok (evalCounts (anns.annotated_regions.map (fun r => r.region))
      (keySort (fun p : Box × ℚ => -p.2) fl) jmin)

/-- Candidate ground-truth boxes of the spec's matching rule: not yet matched
and with IoU at least `jmin`. -/
def iouCandidates (pre : Box) (jmin : ℚ) (matched : List ℕ)
    (gts : List (ℕ × Box)) : List (ℕ × Box) :=
  gts.filter (fun p => decide (p.1 ∉ matched ∧ jmin ≤ calculate_iou pre p.2))

/-- Matching rule as worded by the spec: among the candidates, the one with the
strictly highest IoU, the first in ground-truth list order winning exact ties
(that is, the first candidate whose IoU is at least every candidate's IoU). -/
def specChoose (pre : Box) (jmin : ℚ) (matched : List ℕ)
    (gts : List (ℕ × Box)) : Option (ℕ × Box) :=
  let cs := iouCandidates pre jmin matched gts
  cs.find? (fun p => decide (∀ q ∈ cs, calculate_iou pre q.2 ≤ calculate_iou pre p.2))

/-- State of the spec-side matching loop; `matched` holds real indices only. -/
structure SpecState where
  tp : ℤ
  fn : ℤ
  fp : ℤ
  matched : List ℕ
deriving DecidableEq, Repr

/-- One spec-side matching step: match the chosen candidate (TP, mark matched,
decrement FN) or count a false positive when no candidate exists. -/
def specStep (gts : List (ℕ × Box)) (jmin : ℚ) (s : SpecState) (pre : Box) :
    SpecState :=
  match specChoose pre jmin s.matched gts with
  | some p =>
    { tp := s.tp + 1, fn := s.fn - 1, fp := s.fp, matched := p.1 :: s.matched }
  | none => { tp := s.tp, fn := s.fn, fp := s.fp + 1, matched := s.matched }

/-- Spec-side matching loop. -/
def specFold (gts : List (ℕ × Box)) (jmin : ℚ) :
    SpecState → List (Box × ℚ) → SpecState
  | s, [] => s
  | s, p :: rest => specFold gts jmin (specStep gts jmin s p.1) rest

/-- Final `(TP, FN, FP)` triple read off the spec-side matching state. -/
def specTriple (s : SpecState) : ℤ × ℤ × ℤ := (s.tp, s.fn, s.fp)

/-- Spec-side count computation: the spec matching rule applied to each sorted
filtered prediction in order, with no empty-list short-circuit. -/
def specCounts (gt_boxes : List Box) (pred_boxes : List (Box × ℚ)) (jmin : ℚ) :
    ℤ × ℤ × ℤ :=
  specTriple (specFold (withIdx 0 gt_boxes) jmin
    { tp := 0, fn := (gt_boxes.length : ℤ), fp := 0, matched := [] } pred_boxes)

/-- Per-image evaluation as worded by the spec sentences behind claim C2: same
filtering and score-descending sort as the code, then the spec matching rule
applied to each prediction in order (with no empty-list short-circuit). -/
def evaluate_image_spec (anns preds : Image) (t jmin : ℚ) :
    Except Unit (ℤ × ℤ × ℤ) :=
  match filterPreds t preds.annotated_regions with
  | .error e => .error e
  | .ok fl =>
    .ok (specCounts (anns.annotated_regions.map (fun r => r.region))
      (keySort (fun p : Box × ℚ => -p.2) fl) jmin)

/-- Dead-code prediction filter of `evaluate_pr_naive` (lines 173-176): builds
`(region["region"], region["score"])` for regions with `region["score"] >=
threshold`; the direct `["score"]` access raises on any region with no score. -/
def naiveImageFilter (t : ℚ) : List Region → Except Unit (List (Box × ℚ))
  | [] => .ok []
  | r :: rest =>
    match r.score with
    | none => .error ()
    | some s =>
      match naiveImageFilter t rest with
      | .error e => .error e
      | .ok l => .ok (if t ≤ s then (r.region, s) :: l else l)

/-- Threshold grid `[i / N for i in range(N + 1)]`, in ascending order. -/
def thresholdsAsc (N : ℕ) : List ℚ :=
  (List.range (N + 1)).map (fun i : ℕ => (i : ℚ) / (N : ℚ))

/-- Componentwise sum of two `(TP, FN, FP)` triples. -/
def addCounts (a b : ℤ × ℤ × ℤ) : ℤ × ℤ × ℤ :=
  (a.1 + b.1, a.2.1 + b.2.1, a.2.2 + b.2.2)

/-- Precision/recall record of one threshold, with the zero-denominator
convention of the code (`0` when `TP + FP`, resp. `TP + FN`, is not positive). -/
structure RecEntry where
  precision : ℚ
  recallRate : ℚ
  threshold : ℚ
deriving DecidableEq, Repr

/-- Builds the record of one threshold from the corpus totals `(TP, FN, FP)`. -/
def mkRec (c : ℤ × ℤ × ℤ) (t : ℚ) : RecEntry :=
  { precision := if 0 < c.1 + c.2.2 then (c.1 : ℚ) / ((c.1 : ℚ) + (c.2.2 : ℚ)) else 0
    recallRate := if 0 < c.1 + c.2.1 then (c.1 : ℚ) / ((c.1 : ℚ) + (c.2.1 : ℚ)) else 0
    threshold := t }

/-- Inner image loop of `evaluate_pr_naive` at one threshold: the images are
paired positionally by `zip(annotations['images'], predictions['images'])`;
per pair the dead filter runs first (it can raise), then `evaluate_image`. -/
def naiveTotals (jmin t : ℚ) : List (Image × Image) → Except Unit (ℤ × ℤ × ℤ)
  | [] => .ok (0, 0, 0)
  | gp :: rest =>
    match naiveImageFilter t gp.2.annotated_regions with
    | .error e => .error e
    | .ok _ =>
      match evaluate_image gp.1 gp.2 t jmin with
      | .error e => .error e
      | .ok c =>
        match naiveTotals jmin t rest with
        | .error e => .error e
        | .ok acc => .ok (addCounts c acc)

/-- Threshold loop of `evaluate_pr_naive`. -/
def naiveSweep (anns preds : Doc) (jmin : ℚ) : List ℚ → Except Unit (List RecEntry)
  | [] => .ok []
  | t :: ts =>
    match naiveTotals jmin t (anns.images.zip preds.images) with
    | .error e => .error e
    | .ok c =>
      match naiveSweep anns preds jmin ts with
      | .error e => .error e
      | .ok rs => .ok (mkRec c t :: rs)

/-- `evaluate_pr_naive`: per ascending threshold, accumulate `evaluate_image`
over positionally zipped image pairs and emit one record per threshold. -/
def evaluate_pr_naive (anns preds : Doc) (N : ℕ) (jmin : ℚ) :
    Except Unit (List RecEntry) :=
  naiveSweep anns preds jmin (thresholdsAsc N)

/-- Scored pairs `(region["region"], region["score"])` of one image for the
`sorted_predictions` dict of `evaluate_pr` (line 222); the direct `["score"]`
access raises on a region with no score. -/
def extractPairs : List Region → Except Unit (List (Box × ℚ))
  | [] => .ok []
  | r :: rest =>
    match r.score with
    | none => .error ()
    | some s =>
      match extractPairs rest with
      | .error e => .error e
      | .ok l => .ok ((r.region, s) :: l)

/-- The `sorted_predictions` dict of `evaluate_pr`: per prediction image, its
scored pairs sorted by score descending (stable), keyed by location. -/
def buildDict : List Image → Except Unit (List (String × List (Box × ℚ)))
  | [] => .ok []
  | img :: rest =>
    match extractPairs img.annotated_regions with
    | .error e => .error e
    | .ok pairs =>
      match buildDict rest with
      | .error e => .error e
      | .ok d => .ok ((img.location, keySort (fun p : Box × ℚ => -p.2) pairs) :: d)

/-- Python dict lookup on the association list: the last entry for a key wins
(later dict-comprehension assignments overwrite earlier ones). -/
def dictGet : List (String × List (Box × ℚ)) → String → Option (List (Box × ℚ))
  | [], _ => none
  | e :: rest, k =>
    match dictGet rest k with
    | some v => some v
    | none => if e.1 = k then some e.2 else none

/-- Per ground-truth image step of `evaluate_pr` at one threshold: look the
location up in `sorted_predictions` (default `[]`), filter by the threshold,
and hand the result to `evaluate_image` as a rebuilt region list. -/
def optImage (sp : List (String × List (Box × ℚ))) (jmin t : ℚ) (g : Image) :
    Except Unit (ℤ × ℤ × ℤ) :=
  let pred_boxes := (dictGet sp g.location).getD []
  let fl := pred_boxes.filter (fun p => decide (t ≤ p.2))
  evaluate_image g
    { location := ""
      annotated_regions := fl.map (fun p => { region := p.1, score := some p.2 }) }
    t jmin

/-- Inner image loop of `evaluate_pr` at one threshold, over the ground-truth
images only. -/
def optTotals (sp : List (String × List (Box × ℚ))) (jmin t : ℚ) :
    List Image → Except Unit (ℤ × ℤ × ℤ)
  | [] => .ok (0, 0, 0)
  | g :: rest =>
    match optImage sp jmin t g with
    | .error e => .error e
    | .ok c =>
      match optTotals sp jmin t rest with
      | .error e => .error e
      | .ok acc => .ok (addCounts c acc)

/-- Threshold loop of `evaluate_pr` (thresholds in descending order). -/
def optSweep (sp : List (String × List (Box × ℚ))) (gs : List Image) (jmin : ℚ) :
    List ℚ → Except Unit (List RecEntry)
  | [] => .ok []
  | t :: ts =>
    match optTotals sp jmin t gs with
    | .error e => .error e
    | .ok c =>
      match optSweep sp gs jmin ts with
      | .error e => .error e
      | .ok rs => .ok (mkRec c t :: rs)

/-- `evaluate_pr`: pre-sort each prediction image's scored pairs once, sweep
the thresholds in descending order, then sort the records by ascending
threshold (stable) for the output. -/
def evaluate_pr (anns preds : Doc) (N : ℕ) (jmin : ℚ) :
    Except Unit (List RecEntry) :=
  match buildDict preds.images with
  | .error e => .error e
  | .ok sp =>
    match optSweep sp anns.images jmin (keySort (fun x : ℚ => -x) (thresholdsAsc N)) with
    | .error e => .error e
    | .ok rs => .ok (keySort (fun r : RecEntry => r.threshold) rs)

/-- Pure value of `filterPreds` when no prediction region lacks a score. -/
def pureFilter (t : ℚ) (rs : List Region) : List (Box × ℚ) :=
  (rs.filter (fun r => decide (t ≤ r.score.getD 0))).map
    (fun r => (r.region, r.score.getD 0))

/-- Every region of the list carries a score (no missing `"score"` key). -/
def scoresPresent (rs : List Region) : Prop :=
  ∀ r ∈ rs, r.score ≠ none

/-- Every prediction region of every image of the document carries a score. -/
def docScoresPresent (d : Doc) : Prop :=
  ∀ img ∈ d.images, scoresPresent img.annotated_regions

/-- Scored pairs of a region list (with the `get`-default for a missing
score); equals the built pairs whenever every score is present. -/
def pairsOf (rs : List Region) : List (Box × ℚ) :=
  rs.map (fun r => (r.region, r.score.getD 0))

/-- Value of the `sorted_predictions` dict of `evaluate_pr` when every
prediction score is present. -/
def sortedDict (imgs : List Image) : List (String × List (Box × ℚ)) :=
  imgs.map (fun img =>
    (img.location, keySort (fun p : Box × ℚ => -p.2) (pairsOf img.annotated_regions)))

/-- Payload of an `ok` count triple, defaulting to zeros; used only where the
computation is proven not to raise. -/
def okValue (e : Except Unit (ℤ × ℤ × ℤ)) : ℤ × ℤ × ℤ :=
  match e with
  | .ok c => c
  | .error _ => (0, 0, 0)

theorem keyInsert_perm {α : Type} (k : α → ℚ) (a : α) :
    ∀ m : List α, (keyInsert k a m).Perm (a :: m)
  | [] => List.Perm.refl _
  | b :: m => by
    simp only [keyInsert]
    split
    · exact ((keyInsert_perm k a m).cons b).trans (List.Perm.swap a b m)
    · exact List.Perm.refl _

theorem keySort_perm {α : Type} (k : α → ℚ) :
    ∀ l : List α, (keySort k l).Perm l
  | [] => List.Perm.refl _
  | a :: l => (keyInsert_perm k a (keySort k l)).trans ((keySort_perm k l).cons a)

theorem keyInsert_nil {α : Type} (k : α → ℚ) (a : α) : keyInsert k a [] = [a] := rfl

theorem keyInsert_cons {α : Type} (k : α → ℚ) (a b : α) (m : List α) :
    keyInsert k a (b :: m) =
      if k b < k a then b :: keyInsert k a m else a :: b :: m := rfl

theorem keySort_nil {α : Type} (k : α → ℚ) : keySort k ([] : List α) = [] := rfl

theorem keySort_cons {α : Type} (k : α → ℚ) (a : α) (l : List α) :
    keySort k (a :: l) = keyInsert k a (keySort k l) := rfl

theorem keyInsert_of_forall_ge {α : Type} (k : α → ℚ) (a : α) :
    ∀ m : List α, (∀ c ∈ m, k a ≤ k c) → keyInsert k a m = a :: m := by
  intro m h
  cases m with
  | nil => rfl
  | cons c m =>
    have hc : ¬ k c < k a := not_lt.mpr (h c (List.mem_cons_self c m))
    rw [keyInsert_cons, if_neg hc]

theorem keyInsert_sorted {α : Type} (k : α → ℚ) (a : α) :
    ∀ m : List α, m.Pairwise (fun x y => k x ≤ k y) →
      (keyInsert k a m).Pairwise (fun x y => k x ≤ k y) := by
  intro m
  induction m with
  | nil => intro _; simp [keyInsert]
  | cons b m ih =>
    intro hm
    rw [List.pairwise_cons] at hm
    rw [keyInsert_cons]
    by_cases hba : k b < k a
    · rw [if_pos hba, List.pairwise_cons]
      refine ⟨?_, ih hm.2⟩
      intro x hx
      rcases List.mem_cons.mp ((keyInsert_perm k a m).mem_iff.mp hx) with h | h
      · rw [h]; exact le_of_lt hba
      · exact hm.1 x h
    · rw [if_neg hba, List.pairwise_cons]
      refine ⟨?_, List.pairwise_cons.mpr hm⟩
      intro x hx
      rcases List.mem_cons.mp hx with h | h
      · rw [h]; exact le_of_not_lt hba
      · exact le_trans (le_of_not_lt hba) (hm.1 x h)

theorem keySort_sorted {α : Type} (k : α → ℚ) :
    ∀ l : List α, (keySort k l).Pairwise (fun x y => k x ≤ k y)
  | [] => by simp [keySort]
  | a :: l => keyInsert_sorted k a (keySort k l) (keySort_sorted k l)

theorem keySort_of_sorted {α : Type} (k : α → ℚ) :
    ∀ l : List α, l.Pairwise (fun x y => k x ≤ k y) → keySort k l = l := by
  intro l
  induction l with
  | nil => intro _; simp [keySort]
  | cons a l ih =>
    intro hl
    rw [List.pairwise_cons] at hl
    rw [keySort_cons, ih hl.2]
    exact keyInsert_of_forall_ge k a l hl.1

theorem keyInsert_filter_pos {α : Type} (k : α → ℚ) (p : α → Bool) (a : α) :
    ∀ m : List α, m.Pairwise (fun x y => k x ≤ k y) → p a = true →
      (keyInsert k a m).filter p = keyInsert k a (m.filter p) := by
  intro m
  induction m with
  | nil => intro _ hpa; simp [keyInsert, hpa]
  | cons b m ih =>
    intro hm hpa
    rw [List.pairwise_cons] at hm
    rw [keyInsert_cons]
    by_cases hba : k b < k a
    · rw [if_pos hba, List.filter_cons, List.filter_cons]
      by_cases hpb : p b = true
      · rw [if_pos hpb, if_pos hpb, ih hm.2 hpa, keyInsert_cons, if_pos hba]
      · rw [if_neg hpb, if_neg hpb, ih hm.2 hpa]
    · rw [if_neg hba, List.filter_cons, if_pos hpa, List.filter_cons]
      by_cases hpb : p b = true
      · rw [if_pos hpb, keyInsert_cons, if_neg hba]
      · rw [if_neg hpb]
        rw [keyInsert_of_forall_ge k a _ (by
          intro c hc
          exact le_trans (le_of_not_lt hba) (hm.1 c (List.mem_filter.mp hc).1))]

theorem keyInsert_filter_neg {α : Type} (k : α → ℚ) (p : α → Bool) (a : α) :
    ∀ m : List α, p a = false → (keyInsert k a m).filter p = m.filter p := by
  intro m
  induction m with
  | nil => intro hpa; simp [keyInsert, hpa]
  | cons b m ih =>
    intro hpa
    rw [keyInsert_cons]
    by_cases hba : k b < k a
    · rw [if_pos hba, List.filter_cons, List.filter_cons, ih hpa]
    · rw [if_neg hba, List.filter_cons, if_neg (by rw [hpa]; exact Bool.false_ne_true)]

theorem keySort_filter {α : Type} (k : α → ℚ) (p : α → Bool) :
    ∀ l : List α, keySort k (l.filter p) = (keySort k l).filter p := by
  intro l
  induction l with
  | nil => simp [keySort]
  | cons a l ih =>
    rw [List.filter_cons, keySort_cons]
    by_cases hpa : p a = true
    · rw [if_pos hpa, keySort_cons, ih,
        keyInsert_filter_pos k p a _ (keySort_sorted k l) hpa]
    · rw [if_neg hpa, ih,
        keyInsert_filter_neg k p a _ (Bool.eq_false_iff.mpr hpa)]

theorem keyInsert_append_of_lt {α : Type} (k : α → ℚ) (a : α) :
    ∀ m : List α, (∀ b ∈ m, k b < k a) → keyInsert k a m = m ++ [a] := by
  intro m
  induction m with
  | nil => intro _; simp [keyInsert]
  | cons b m ih =>
    intro h
    rw [keyInsert_cons, if_pos (h b (List.mem_cons_self b m)),
      ih (fun c hc => h c (List.mem_cons_of_mem b hc))]
    simp

theorem keySort_of_strictDesc {α : Type} (k : α → ℚ) :
    ∀ l : List α, l.Pairwise (fun x y => k y < k x) → keySort k l = l.reverse := by
  intro l
  induction l with
  | nil => intro _; simp [keySort]
  | cons a l ih =>
    intro hl
    rw [List.pairwise_cons] at hl
    rw [keySort_cons, ih hl.2,
      keyInsert_append_of_lt k a _ (fun b hb => hl.1 b (List.mem_reverse.mp hb))]
    simp

theorem filter_eq_takeWhile_of_sorted {α : Type} (R : α → α → Prop) (p : α → Bool) :
    ∀ l : List α, l.Pairwise R → (∀ a b, R a b → p b = true → p a = true) →
      l.filter p = l.takeWhile p := by
  intro l
  induction l with
  | nil => intro _ _; simp
  | cons a l ih =>
    intro hl hup
    rw [List.pairwise_cons] at hl
    rw [List.filter_cons, List.takeWhile_cons]
    by_cases hpa : p a = true
    · rw [if_pos hpa, if_pos hpa, ih hl.2 hup]
    · rw [if_neg hpa, if_neg hpa, List.filter_eq_nil_iff]
      intro b hb hpb
      exact hpa (hup a b (hl.1 b hb) hpb)

theorem takeWhile_append_of_imp {α : Type} (p q : α → Bool)
    (himp : ∀ x, p x = true → q x = true) :
    ∀ l : List α, ∃ s, l.takeWhile q = l.takeWhile p ++ s := by
  intro l
  induction l with
  | nil => exact ⟨[], by simp⟩
  | cons a l ih =>
    by_cases hpa : p a = true
    · obtain ⟨s, hs⟩ := ih
      refine ⟨s, ?_⟩
      rw [List.takeWhile_cons, List.takeWhile_cons, if_pos hpa,
        if_pos (himp a hpa), hs]
      simp
    · refine ⟨(a :: l).takeWhile q, ?_⟩
      have hzero : (a :: l).takeWhile p = [] := by
        rw [List.takeWhile_cons, if_neg hpa]
      rw [hzero]
      simp

theorem absorb_nil (t cur : ℚ) : absorb t [] cur = ([], [], cur) := rfl

theorem absorb_cons (t : ℚ) (b : Box) (rest : List Box) (cur : ℚ) :
    absorb t (b :: rest) cur =
      if b.xmin ≤ cur + t then
        (b :: (absorb t rest (max cur b.xmax)).1,
          (absorb t rest (max cur b.xmax)).2.1,
          (absorb t rest (max cur b.xmax)).2.2)
      else
        ((absorb t rest cur).1, b :: (absorb t rest cur).2.1,
          (absorb t rest cur).2.2) := rfl

theorem absorb_rem_length (t : ℚ) :
    ∀ (l : List Box) (cur : ℚ), (absorb t l cur).2.1.length ≤ l.length := by
  intro l
  induction l with
  | nil => intro _; simp [absorb]
  | cons b rest ih =>
    intro cur
    rw [absorb_cons]
    by_cases hb : b.xmin ≤ cur + t
    · rw [if_pos hb]
      exact Nat.le_succ_of_le (ih _)
    · rw [if_neg hb]
      simpa using ih cur

theorem absorb_perm (t : ℚ) :
    ∀ (l : List Box) (cur : ℚ),
      ((absorb t l cur).1 ++ (absorb t l cur).2.1).Perm l := by
  intro l
  induction l with
  | nil => intro _; simp [absorb]
  | cons b rest ih =>
    intro cur
    rw [absorb_cons]
    by_cases hb : b.xmin ≤ cur + t
    · rw [if_pos hb]
      simpa using (ih (max cur b.xmax)).cons b
    · rw [if_neg hb]
      exact List.perm_middle.trans ((ih cur).cons b)

theorem mergeGroups_nil (t : ℚ) : mergeGroups t [] = [] := by
  rw [mergeGroups]

theorem mergeGroups_cons (t : ℚ) (b : Box) (rest : List Box) :
    mergeGroups t (b :: rest) =
      (b :: (absorb t rest b.xmax).1) ::
        mergeGroups t (absorb t rest b.xmax).2.1 := by
  rw [mergeGroups]

theorem mergeGroups_flatten_perm_aux (t : ℚ) :
    ∀ (n : ℕ) (l : List Box), l.length ≤ n →
      ((mergeGroups t l).flatten).Perm l := by
  intro n
  induction n with
  | zero =>
    intro l hl
    rw [List.length_eq_zero.mp (Nat.le_zero.mp hl)]
    simp [mergeGroups_nil]
  | succ n ih =>
    intro l hl
    cases l with
    | nil => simp [mergeGroups_nil]
    | cons b rest =>
      rw [mergeGroups_cons, List.flatten_cons, List.cons_append]
      have hrem : (absorb t rest b.xmax).2.1.length ≤ n :=
        le_trans (absorb_rem_length t rest b.xmax) (Nat.succ_le_succ_iff.mp hl)
      have h1 := ih (absorb t rest b.xmax).2.1 hrem
      have h2 := absorb_perm t rest b.xmax
      exact ((List.Perm.append_left _ h1).trans h2).cons b

theorem mergeGroups_flatten_perm (t : ℚ) (l : List Box) :
    ((mergeGroups t l).flatten).Perm l :=
  mergeGroups_flatten_perm_aux t l.length l le_rfl

theorem mergeGroups_ne_nil_aux (t : ℚ) :
    ∀ (n : ℕ) (l : List Box), l.length ≤ n →
      ∀ g ∈ mergeGroups t l, g ≠ [] := by
  intro n
  induction n with
  | zero =>
    intro l hl
    rw [List.length_eq_zero.mp (Nat.le_zero.mp hl)]
    simp [mergeGroups_nil]
  | succ n ih =>
    intro l hl
    cases l with
    | nil => simp [mergeGroups_nil]
    | cons b rest =>
      rw [mergeGroups_cons]
      intro g hg
      rcases List.mem_cons.mp hg with h | h
      · rw [h]; exact List.cons_ne_nil b _
      · have hrem : (absorb t rest b.xmax).2.1.length ≤ n :=
          le_trans (absorb_rem_length t rest b.xmax) (Nat.succ_le_succ_iff.mp hl)
        exact ih _ hrem g h

theorem mergeGroups_ne_nil (t : ℚ) (l : List Box) :
    ∀ g ∈ mergeGroups t l, g ≠ [] :=
  mergeGroups_ne_nil_aux t l.length l le_rfl

theorem foldMin_cons (f : Box → ℚ) (a : ℚ) (c : Box) (l : List Box) :
    foldMin f a (c :: l) = foldMin f (min a (f c)) l := rfl

theorem foldMax_cons (f : Box → ℚ) (a : ℚ) (c : Box) (l : List Box) :
    foldMax f a (c :: l) = foldMax f (max a (f c)) l := rfl

theorem foldMin_le_init (f : Box → ℚ) :
    ∀ (l : List Box) (a : ℚ), foldMin f a l ≤ a := by
  intro l
  induction l with
  | nil => intro a; exact le_refl a
  | cons c l ih =>
    intro a
    rw [foldMin_cons]
    exact le_trans (ih _) (min_le_left _ _)

theorem foldMax_init_le (f : Box → ℚ) :
    ∀ (l : List Box) (a : ℚ), a ≤ foldMax f a l := by
  intro l
  induction l with
  | nil => intro a; exact le_refl a
  | cons c l ih =>
    intro a
    rw [foldMax_cons]
    exact le_trans (le_max_left _ _) (ih _)

theorem foldMin_le_mem (f : Box → ℚ) :
    ∀ (l : List Box) (a : ℚ) (b : Box), b ∈ l → foldMin f a l ≤ f b := by
  intro l
  induction l with
  | nil => intro a b hb; exact absurd hb (List.not_mem_nil b)
  | cons c l ih =>
    intro a b hb
    rw [foldMin_cons]
    rcases List.mem_cons.mp hb with h | h
    · rw [h]
      exact le_trans (foldMin_le_init f l _) (min_le_right _ _)
    · exact ih _ b h

theorem foldMax_mem_le (f : Box → ℚ) :
    ∀ (l : List Box) (a : ℚ) (b : Box), b ∈ l → f b ≤ foldMax f a l := by
  intro l
  induction l with
  | nil => intro a b hb; exact absurd hb (List.not_mem_nil b)
  | cons c l ih =>
    intro a b hb
    rw [foldMax_cons]
    rcases List.mem_cons.mp hb with h | h
    · rw [h]
      exact le_trans (le_max_right _ _) (foldMax_init_le f l _)
    · exact ih _ b h

theorem foldMin_attained (f : Box → ℚ) :
    ∀ (l : List Box) (a : ℚ), foldMin f a l = a ∨ ∃ b ∈ l, foldMin f a l = f b := by
  intro l
  induction l with
  | nil => intro a; exact Or.inl rfl
  | cons c l ih =>
    intro a
    rw [foldMin_cons]
    rcases ih (min a (f c)) with h | ⟨b, hb, h⟩
    · rcases min_choice a (f c) with hm | hm
      · exact Or.inl (h.trans hm)
      · exact Or.inr ⟨c, List.mem_cons_self c l, h.trans hm⟩
    · exact Or.inr ⟨b, List.mem_cons_of_mem c hb, h⟩

theorem foldMax_attained (f : Box → ℚ) :
    ∀ (l : List Box) (a : ℚ), foldMax f a l = a ∨ ∃ b ∈ l, foldMax f a l = f b := by
  intro l
  induction l with
  | nil => intro a; exact Or.inl rfl
  | cons c l ih =>
    intro a
    rw [foldMax_cons]
    rcases ih (max a (f c)) with h | ⟨b, hb, h⟩
    · rcases max_choice a (f c) with hm | hm
      · exact Or.inl (h.trans hm)
      · exact Or.inr ⟨c, List.mem_cons_self c l, h.trans hm⟩
    · exact Or.inr ⟨b, List.mem_cons_of_mem c hb, h⟩

theorem envChain_nil (t cur : ℚ) : envChain t cur [] = True := rfl

theorem envChain_cons (t cur : ℚ) (b : Box) (l : List Box) :
    envChain t cur (b :: l) = (b.xmin ≤ cur + t ∧ envChain t (max cur b.xmax) l) := rfl

theorem absorb_of_envChain (t : ℚ) :
    ∀ (l : List Box) (cur : ℚ), envChain t cur l →
      absorb t l cur = (l, [], foldMax Box.xmax cur l) := by
  intro l
  induction l with
  | nil => intro cur _; rfl
  | cons b rest ih =>
    intro cur hc
    rw [envChain_cons] at hc
    rw [absorb_cons, if_pos hc.1, ih _ hc.2]
    rfl

theorem absorb_of_all_far (t : ℚ) :
    ∀ (l : List Box) (cur : ℚ), (∀ b2 ∈ l, cur + t < b2.xmin) →
      absorb t l cur = ([], l, cur) := by
  intro l
  induction l with
  | nil => intro cur _; rfl
  | cons b rest ih =>
    intro cur h
    rw [absorb_cons, if_neg (not_le.mpr (h b (List.mem_cons_self b rest))),
      ih cur (fun b2 hb2 => h b2 (List.mem_cons_of_mem b hb2))]

/-- C1: in `merge_boxes`, per image, grouping follows the left-to-right sweep
with a growing envelope: (i) a chain of boxes each within `overlap_threshold`
of the running maximum `xmax` of the boxes absorbed so far is absorbed whole
(transitive merging), with the envelope ending at the running maximum; (ii) on
`xmin`-sorted input, a box beyond `current_xmax + overlap_threshold` joins
nothing, and neither does anything after it; (iii) concretely, A(0..10) and
B(10.005..20) at threshold 0.01 merge into one grouped box spanning 0..20,
while (iv) with B at xmin 10.02 nothing merges and both boxes come back as
ungrouped singles. -/
theorem claim_C1_sweep_envelope :
    (∀ (t cur : ℚ) (l : List Box), envChain t cur l →
      absorb t l cur = (l, [], foldMax Box.xmax cur l)) ∧
    (∀ (t cur : ℚ) (b : Box) (l : List Box),
      (∀ b2 ∈ l, b.xmin ≤ b2.xmin) → cur + t < b.xmin →
      absorb t (b :: l) cur = ([], b :: l, cur)) ∧
    merge_boxes [("img", [{ xmin := 0, ymin := 0, xmax := 10, ymax := 1 },
        { xmin := 10.005, ymin := 0, xmax := 20, ymax := 1 }])] (1/100) =
      [("img", ([{ xmin := 0, ymin := 0, xmax := 20, ymax := 1 }], []))] ∧
    merge_boxes [("img", [{ xmin := 0, ymin := 0, xmax := 10, ymax := 1 },
        { xmin := 10.02, ymin := 0, xmax := 20, ymax := 1 }])] (1/100) =
      [("img", ([], [{ xmin := 0, ymin := 0, xmax := 10, ymax := 1 },
        { xmin := 10.02, ymin := 0, xmax := 20, ymax := 1 }]))] := by
  refine ⟨?_, ?_, ?_, ?_⟩
  · intro t cur l h
    exact absorb_of_envChain t l cur h
  · intro t cur b l hsort hfar
    refine absorb_of_all_far t (b :: l) cur ?_
    intro b2 hb2
    rcases List.mem_cons.mp hb2 with h | h
    · rw [h]; exact hfar
    · exact lt_of_lt_of_le hfar (hsort b2 h)
  · norm_num [merge_boxes, merge_boxes_image, keySort, keyInsert,
      mergeGroups_cons, mergeGroups_nil, absorb, envelopeBox, foldMin, foldMax,
      List.filter]
  · norm_num [merge_boxes, merge_boxes_image, keySort, keyInsert,
      mergeGroups_cons, mergeGroups_nil, absorb, envelopeBox, foldMin, foldMax,
      List.filter]

/-- Witness for C1: the general sweep conjuncts applied at concrete inputs — a
two-box chain absorbed transitively via the growing envelope, and a sorted
tail rejected whole when its head is beyond the envelope plus threshold. -/
theorem claim_C1_sweep_envelope_witness :
    absorb (1/100) [{ xmin := 10.005, ymin := 0, xmax := 30, ymax := 1 },
        { xmin := 30.002, ymin := 0, xmax := 40, ymax := 1 }] 10 =
      ([{ xmin := 10.005, ymin := 0, xmax := 30, ymax := 1 },
        { xmin := 30.002, ymin := 0, xmax := 40, ymax := 1 }], [], 40) ∧
    absorb (1/100) [{ xmin := 10.02, ymin := 0, xmax := 20, ymax := 1 },
        { xmin := 11, ymin := 0, xmax := 12, ymax := 1 }] 10 =
      ([], [{ xmin := 10.02, ymin := 0, xmax := 20, ymax := 1 },
        { xmin := 11, ymin := 0, xmax := 12, ymax := 1 }], 10) := by
  constructor
  · have h := claim_C1_sweep_envelope.1 (1/100) 10
      [{ xmin := 10.005, ymin := 0, xmax := 30, ymax := 1 },
        { xmin := 30.002, ymin := 0, xmax := 40, ymax := 1 }]
      (by norm_num [envChain_cons, envChain_nil])
    rw [h]
    norm_num [foldMax_cons]
    rfl
  · exact claim_C1_sweep_envelope.2.1 (1/100) 10
      { xmin := 10.02, ymin := 0, xmax := 20, ymax := 1 }
      [{ xmin := 11, ymin := 0, xmax := 12, ymax := 1 }]
      (by norm_num) (by norm_num)

/-- C3: `merge_boxes` partitions the input of every image: the sweep's groups
are nonempty, they jointly contain every input box exactly once (their
concatenation is a permutation of the input boxes), and the output lists are
exactly the envelopes of the groups with at least two members and the members
of the singleton groups. -/
theorem claim_C3_partition :
    ∀ (t : ℚ) (m : List (String × List Box)) (loc : String) (boxes : List Box),
      (loc, boxes) ∈ m →
      (loc, merge_boxes_image t boxes) ∈ merge_boxes m t ∧
      ∃ groups : List (List Box),
        merge_boxes_image t boxes =
          ((groups.filter (fun g => decide (2 ≤ g.length))).map envelopeBox,
            (groups.filter (fun g => decide (g.length = 1))).flatten) ∧
        groups.flatten.Perm boxes ∧
        (∀ g ∈ groups, g.length = 1 ∨ 2 ≤ g.length) := by
  intro t m loc boxes hmem
  constructor
  · exact List.mem_map_of_mem (fun e => (e.1, merge_boxes_image t e.2)) hmem
  · refine ⟨mergeGroups t (keySort Box.xmin boxes), rfl, ?_, ?_⟩
    · exact (mergeGroups_flatten_perm t (keySort Box.xmin boxes)).trans
        (keySort_perm Box.xmin boxes)
    · intro g hg
      have hne := mergeGroups_ne_nil t (keySort Box.xmin boxes) g hg
      cases g with
      | nil => exact absurd rfl hne
      | cons b g2 =>
        cases g2 with
        | nil => exact Or.inl rfl
        | cons c g3 =>
          right
          simp [List.length_cons]

/-- Witness for C3: the partition conclusion at a concrete two-box image. -/
theorem claim_C3_partition_witness :
    (("i", merge_boxes_image (1/100)
        [{ xmin := 0, ymin := 0, xmax := 10, ymax := 1 },
          { xmin := 10.005, ymin := 0, xmax := 20, ymax := 1 }]) ∈
      merge_boxes [("i", [{ xmin := 0, ymin := 0, xmax := 10, ymax := 1 },
          { xmin := 10.005, ymin := 0, xmax := 20, ymax := 1 }])] (1/100)) ∧
    ∃ groups : List (List Box),
      merge_boxes_image (1/100)
          [{ xmin := 0, ymin := 0, xmax := 10, ymax := 1 },
            { xmin := 10.005, ymin := 0, xmax := 20, ymax := 1 }] =
        ((groups.filter (fun g => decide (2 ≤ g.length))).map envelopeBox,
          (groups.filter (fun g => decide (g.length = 1))).flatten) ∧
      groups.flatten.Perm [{ xmin := 0, ymin := 0, xmax := 10, ymax := 1 },
        { xmin := 10.005, ymin := 0, xmax := 20, ymax := 1 }] ∧
      (∀ g ∈ groups, g.length = 1 ∨ 2 ≤ g.length) :=
  claim_C3_partition (1/100) _ "i" _ (List.mem_singleton.mpr rfl)

/-- C4: every grouped box emitted by `merge_boxes` is the exact bounding
envelope of a sweep group with at least two members: each coordinate bounds
the corresponding coordinate of every member (min for `xmin`/`ymin`, max for
`xmax`/`ymax`) and is attained by some member. -/
theorem claim_C4_envelope :
    ∀ (t : ℚ) (boxes : List Box) (mb : Box),
      mb ∈ (merge_boxes_image t boxes).1 →
      ∃ g, g ∈ mergeGroups t (keySort Box.xmin boxes) ∧ 2 ≤ g.length ∧
        mb = envelopeBox g ∧
        (∀ b ∈ g, mb.xmin ≤ b.xmin ∧ mb.ymin ≤ b.ymin ∧
          b.xmax ≤ mb.xmax ∧ b.ymax ≤ mb.ymax) ∧
        (∃ b ∈ g, mb.xmin = b.xmin) ∧ (∃ b ∈ g, mb.ymin = b.ymin) ∧
        (∃ b ∈ g, mb.xmax = b.xmax) ∧ (∃ b ∈ g, mb.ymax = b.ymax) := by
  intro t boxes mb hmb
  obtain ⟨g, hgf, hge⟩ := List.mem_map.mp hmb
  have hgmem := List.mem_filter.mp hgf
  have hlen : 2 ≤ g.length := by
    have := hgmem.2
    simpa using this
  refine ⟨g, hgmem.1, hlen, hge.symm, ?_, ?_, ?_, ?_, ?_⟩
  · intro b hb
    cases g with
    | nil => simp at hlen
    | cons c g2 =>
      rw [← hge]
      rcases List.mem_cons.mp hb with h | h
      · rw [h]
        exact ⟨foldMin_le_init Box.xmin g2 c.xmin, foldMin_le_init Box.ymin g2 c.ymin,
          foldMax_init_le Box.xmax g2 c.xmax, foldMax_init_le Box.ymax g2 c.ymax⟩
      · exact ⟨foldMin_le_mem Box.xmin g2 c.xmin b h, foldMin_le_mem Box.ymin g2 c.ymin b h,
          foldMax_mem_le Box.xmax g2 c.xmax b h, foldMax_mem_le Box.ymax g2 c.ymax b h⟩
  · cases g with
    | nil => simp at hlen
    | cons c g2 =>
      rw [← hge]
      rcases foldMin_attained Box.xmin g2 c.xmin with h | ⟨b, hb, h⟩
      · exact ⟨c, List.mem_cons_self c g2, h⟩
      · exact ⟨b, List.mem_cons_of_mem c hb, h⟩
  · cases g with
    | nil => simp at hlen
    | cons c g2 =>
      rw [← hge]
      rcases foldMin_attained Box.ymin g2 c.ymin with h | ⟨b, hb, h⟩
      · exact ⟨c, List.mem_cons_self c g2, h⟩
      · exact ⟨b, List.mem_cons_of_mem c hb, h⟩
  · cases g with
    | nil => simp at hlen
    | cons c g2 =>
      rw [← hge]
      rcases foldMax_attained Box.xmax g2 c.xmax with h | ⟨b, hb, h⟩
      · exact ⟨c, List.mem_cons_self c g2, h⟩
      · exact ⟨b, List.mem_cons_of_mem c hb, h⟩
  · cases g with
    | nil => simp at hlen
    | cons c g2 =>
      rw [← hge]
      rcases foldMax_attained Box.ymax g2 c.ymax with h | ⟨b, hb, h⟩
      · exact ⟨c, List.mem_cons_self c g2, h⟩
      · exact ⟨b, List.mem_cons_of_mem c hb, h⟩

/-- Witness for C4: the envelope conclusion at the concrete merged pair of
scenario 1 (boxes 0..10 and 10.005..20 merging into 0..20). -/
theorem claim_C4_envelope_witness :
    ∃ g, g ∈ mergeGroups (1/100)
        (keySort Box.xmin [{ xmin := 0, ymin := 0, xmax := 10, ymax := 1 },
          { xmin := 10.005, ymin := 0, xmax := 20, ymax := 1 }]) ∧
      2 ≤ g.length ∧
      ({ xmin := 0, ymin := 0, xmax := 20, ymax := 1 } : Box) = envelopeBox g ∧
      (∀ b ∈ g, ({ xmin := 0, ymin := 0, xmax := 20, ymax := 1 } : Box).xmin ≤ b.xmin ∧
        ({ xmin := 0, ymin := 0, xmax := 20, ymax := 1 } : Box).ymin ≤ b.ymin ∧
        b.xmax ≤ ({ xmin := 0, ymin := 0, xmax := 20, ymax := 1 } : Box).xmax ∧
        b.ymax ≤ ({ xmin := 0, ymin := 0, xmax := 20, ymax := 1 } : Box).ymax) ∧
      (∃ b ∈ g, ({ xmin := 0, ymin := 0, xmax := 20, ymax := 1 } : Box).xmin = b.xmin) ∧
      (∃ b ∈ g, ({ xmin := 0, ymin := 0, xmax := 20, ymax := 1 } : Box).ymin = b.ymin) ∧
      (∃ b ∈ g, ({ xmin := 0, ymin := 0, xmax := 20, ymax := 1 } : Box).xmax = b.xmax) ∧
      (∃ b ∈ g, ({ xmin := 0, ymin := 0, xmax := 20, ymax := 1 } : Box).ymax = b.ymax) := by
  refine claim_C4_envelope (1/100)
    [{ xmin := 0, ymin := 0, xmax := 10, ymax := 1 },
      { xmin := 10.005, ymin := 0, xmax := 20, ymax := 1 }]
    { xmin := 0, ymin := 0, xmax := 20, ymax := 1 } ?_
  norm_num [merge_boxes_image, keySort, keyInsert, mergeGroups_cons,
    mergeGroups_nil, absorb, envelopeBox, foldMin, foldMax, List.filter]

theorem filterPreds_nil (t : ℚ) : filterPreds t [] = .ok [] := rfl

theorem filterPreds_cons_none (t : ℚ) (rb : Box) (rest : List Region) :
    filterPreds t ({ region := rb, score := none } :: rest) =
      if t ≤ 0 then .error () else filterPreds t rest := rfl

theorem filterPreds_cons_some (t : ℚ) (rb : Box) (s : ℚ) (rest : List Region) :
    filterPreds t ({ region := rb, score := some s } :: rest) =
      if t ≤ s then
        match filterPreds t rest with
        | .error e => .error e
        | .ok l => .ok ((rb, s) :: l)
      else filterPreds t rest := rfl

theorem pureFilter_nil (t : ℚ) : pureFilter t [] = [] := rfl

theorem pureFilter_cons (t : ℚ) (r : Region) (rest : List Region) :
    pureFilter t (r :: rest) =
      if t ≤ r.score.getD 0 then (r.region, r.score.getD 0) :: pureFilter t rest
      else pureFilter t rest := by
  unfold pureFilter
  rw [List.filter_cons]
  by_cases h : t ≤ r.score.getD 0
  · rw [if_pos (decide_eq_true h), if_pos h, List.map_cons]
  · have hd : decide (t ≤ r.score.getD 0) = false := decide_eq_false h
    rw [hd, if_neg Bool.false_ne_true, if_neg h]

theorem filterPreds_of_scoresPresent (t : ℚ) :
    ∀ rs : List Region, scoresPresent rs → filterPreds t rs = .ok (pureFilter t rs) := by
  intro rs
  induction rs with
  | nil => intro _; rfl
  | cons r rest ih =>
    intro h
    have htail : scoresPresent rest := fun x hx => h x (List.mem_cons_of_mem r hx)
    obtain ⟨rb, rsc⟩ := r
    cases rsc with
    | none =>
      exact absurd rfl (h ⟨rb, none⟩ (List.mem_cons_self _ rest))
    | some s =>
      rw [filterPreds_cons_some, pureFilter_cons, ih htail]
      simp only [Option.getD_some]
      by_cases ht : t ≤ s
      · rw [if_pos ht, if_pos ht]
      · rw [if_neg ht, if_neg ht]

theorem filterPreds_ok_eq (t : ℚ) :
    ∀ (rs : List Region) (f : List (Box × ℚ)),
      filterPreds t rs = .ok f → f = pureFilter t rs := by
  intro rs
  induction rs with
  | nil =>
    intro f hf
    rw [pureFilter_nil]
    exact (Except.ok.inj hf).symm
  | cons r rest ih =>
    intro f hf
    obtain ⟨rb, rsc⟩ := r
    cases rsc with
    | none =>
      rw [filterPreds_cons_none] at hf
      by_cases ht : t ≤ (0 : ℚ)
      · rw [if_pos ht] at hf
        exact absurd hf (by simp)
      · rw [if_neg ht] at hf
        rw [pureFilter_cons]
        simp only [Option.getD_none]
        rw [if_neg ht]
        exact ih f hf
    | some s =>
      rw [filterPreds_cons_some] at hf
      rw [pureFilter_cons]
      simp only [Option.getD_some]
      by_cases ht : t ≤ s
      · rw [if_pos ht] at hf
        rw [if_pos ht]
        cases hrec : filterPreds t rest with
        | error e =>
          rw [hrec] at hf
          exact absurd hf (by simp)
        | ok l =>
          rw [hrec] at hf
          rw [← Except.ok.inj hf, ih l hrec]
      · rw [if_neg ht] at hf
        rw [if_neg ht]
        exact ih f hf

theorem matchFold_nil (gts : List (ℕ × Box)) (jmin : ℚ) (s : MatchState) :
    matchFold gts jmin s [] = s := rfl

theorem matchFold_cons (gts : List (ℕ × Box)) (jmin : ℚ) (s : MatchState)
    (p : Box × ℚ) (l : List (Box × ℚ)) :
    matchFold gts jmin s (p :: l) =
      matchFold gts jmin (matchStep gts jmin s p.1) l := rfl

theorem matchStep_tp_fn (gts : List (ℕ × Box)) (jmin : ℚ) (s : MatchState)
    (pre : Box) :
    (matchStep gts jmin s pre).tp + (matchStep gts jmin s pre).fn = s.tp + s.fn := by
  simp only [matchStep]
  split
  · simp only []
    ring
  · rfl

theorem matchStep_tp_fp (gts : List (ℕ × Box)) (jmin : ℚ) (s : MatchState)
    (pre : Box) :
    (matchStep gts jmin s pre).tp + (matchStep gts jmin s pre).fp =
      s.tp + s.fp + 1 := by
  simp only [matchStep]
  split
  · simp only []
    ring
  · simp only []
    ring

theorem matchStep_tp_ge (gts : List (ℕ × Box)) (jmin : ℚ) (s : MatchState)
    (pre : Box) : s.tp ≤ (matchStep gts jmin s pre).tp := by
  simp only [matchStep]
  split
  · simp only []
    exact Int.le_add_one le_rfl
  · exact le_rfl

theorem matchFold_tp_fn (gts : List (ℕ × Box)) (jmin : ℚ) :
    ∀ (l : List (Box × ℚ)) (s : MatchState),
      (matchFold gts jmin s l).tp + (matchFold gts jmin s l).fn = s.tp + s.fn := by
  intro l
  induction l with
  | nil => intro s; rfl
  | cons p l ih =>
    intro s
    rw [matchFold_cons, ih, matchStep_tp_fn]

theorem matchFold_tp_fp (gts : List (ℕ × Box)) (jmin : ℚ) :
    ∀ (l : List (Box × ℚ)) (s : MatchState),
      (matchFold gts jmin s l).tp + (matchFold gts jmin s l).fp =
        s.tp + s.fp + (l.length : ℤ) := by
  intro l
  induction l with
  | nil => intro s; simp [matchFold_nil]
  | cons p l ih =>
    intro s
    rw [matchFold_cons, ih, matchStep_tp_fp]
    simp [List.length_cons]
    ring

theorem matchFold_tp_ge (gts : List (ℕ × Box)) (jmin : ℚ) :
    ∀ (l : List (Box × ℚ)) (s : MatchState),
      s.tp ≤ (matchFold gts jmin s l).tp := by
  intro l
  induction l with
  | nil => intro s; exact le_rfl
  | cons p l ih =>
    intro s
    rw [matchFold_cons]
    exact le_trans (matchStep_tp_ge gts jmin s p.1) (ih _)

theorem matchFold_append (gts : List (ℕ × Box)) (jmin : ℚ) :
    ∀ (l1 l2 : List (Box × ℚ)) (s : MatchState),
      matchFold gts jmin s (l1 ++ l2) =
        matchFold gts jmin (matchFold gts jmin s l1) l2 := by
  intro l1
  induction l1 with
  | nil => intro l2 s; rfl
  | cons p l1 ih =>
    intro l2 s
    rw [List.cons_append, matchFold_cons, matchFold_cons, ih]

theorem evaluate_image_ok (anns preds : Image) (t jmin : ℚ)
    (fl : List (Box × ℚ)) (hf : filterPreds t preds.annotated_regions = .ok fl) :
    evaluate_image anns preds t jmin =
      .ok (evalCounts (anns.annotated_regions.map (fun r => r.region))
        (keySort (fun p : Box × ℚ => -p.2) fl) jmin) := by
  unfold evaluate_image
  rw [hf]

theorem evaluate_image_error (anns preds : Image) (t jmin : ℚ)
    (hf : filterPreds t preds.annotated_regions = .error ()) :
    evaluate_image anns preds t jmin = .error () := by
  unfold evaluate_image
  rw [hf]

theorem evalCounts_saturation (gts : List Box) (ps : List (Box × ℚ)) (jmin : ℚ) :
    (evalCounts gts ps jmin).1 + (evalCounts gts ps jmin).2.1 = (gts.length : ℤ) ∧
    (evalCounts gts ps jmin).1 + (evalCounts gts ps jmin).2.2 = (ps.length : ℤ) := by
  unfold evalCounts
  split
  · simp
  · constructor
    · have h := matchFold_tp_fn (withIdx 0 gts) jmin ps
        { tp := 0, fn := (gts.length : ℤ), fp := 0, matched := [] }
      simpa [stateTriple] using h
    · have h := matchFold_tp_fp (withIdx 0 gts) jmin ps
        { tp := 0, fn := (gts.length : ℤ), fp := 0, matched := [] }
      simpa [stateTriple] using h

/-- C7: for every input to `evaluate_image` that returns, TP + FN equals the
ground-truth count and TP + FP equals the filtered-prediction count, including
the short-circuit cases: with no ground truth the result is
`(0, 0, |filtered|)` and with no filtered predictions it is `(0, |gt|, 0)`. -/
theorem claim_C7_saturation :
    ∀ (anns preds : Image) (t jmin : ℚ) (fl : List (Box × ℚ)) (r : ℤ × ℤ × ℤ),
      filterPreds t preds.annotated_regions = .ok fl →
      evaluate_image anns preds t jmin = .ok r →
      r.1 + r.2.1 = (anns.annotated_regions.length : ℤ) ∧
      r.1 + r.2.2 = (fl.length : ℤ) ∧
      (anns.annotated_regions.length = 0 → r = (0, 0, (fl.length : ℤ))) ∧
      (fl.length = 0 → r = (0, (anns.annotated_regions.length : ℤ), 0)) := by
  intro anns preds t jmin fl r hf he
  rw [evaluate_image_ok anns preds t jmin fl hf] at he
  have hr : r = evalCounts (anns.annotated_regions.map (fun x => x.region))
      (keySort (fun p : Box × ℚ => -p.2) fl) jmin := (Except.ok.inj he).symm
  have hlen1 : (anns.annotated_regions.map (fun x => x.region)).length =
      anns.annotated_regions.length := List.length_map _ _
  have hlen2 : (keySort (fun p : Box × ℚ => -p.2) fl).length = fl.length :=
    (keySort_perm (fun p : Box × ℚ => -p.2) fl).length_eq
  have hsat := evalCounts_saturation (anns.annotated_regions.map (fun x => x.region))
    (keySort (fun p : Box × ℚ => -p.2) fl) jmin
  refine ⟨?_, ?_, ?_, ?_⟩
  · rw [hr]
    rw [hlen1, hlen2] at hsat
    exact hsat.1
  · rw [hr]
    rw [hlen1, hlen2] at hsat
    exact hsat.2
  · intro hgt
    rw [hr]
    unfold evalCounts
    rw [if_pos (Or.inl (by rw [hlen1, hgt]))]
    rw [hlen1, hlen2, hgt]
    simp
  · intro hfl
    rw [hr]
    unfold evalCounts
    rw [if_pos (Or.inr (by rw [hlen2, hfl]))]
    rw [hlen1, hlen2, hfl]
    simp

/-- Witness for C7 at a concrete input: one ground-truth box, one passing
prediction matching it perfectly. -/
theorem claim_C7_saturation_witness :
    (1 : ℤ) + 0 = ((1 : ℕ) : ℤ) ∧ (1 : ℤ) + 0 = ((1 : ℕ) : ℤ) ∧
    ((1 : ℕ) = 0 → ((1 : ℤ), (0 : ℤ), (0 : ℤ)) = (0, 0, ((1 : ℕ) : ℤ))) ∧
    ((1 : ℕ) = 0 → ((1 : ℤ), (0 : ℤ), (0 : ℤ)) = (0, ((1 : ℕ) : ℤ), 0)) := by
  have h := claim_C7_saturation
    { location := "g", annotated_regions :=
        [{ region := { xmin := 0, ymin := 0, xmax := 1, ymax := 1 }, score := none }] }
    { location := "p", annotated_regions :=
        [{ region := { xmin := 0, ymin := 0, xmax := 1, ymax := 1 }, score := some 1 }] }
    0 (1/2)
    [({ xmin := 0, ymin := 0, xmax := 1, ymax := 1 }, 1)]
    (1, 0, 0)
    (by norm_num [filterPreds_cons_some, filterPreds_nil])
    (by norm_num [evaluate_image, filterPreds_cons_some, filterPreds_nil,
      evalCounts, stateTriple, keySort, keyInsert, withIdx, matchFold_cons,
      matchFold_nil, matchStep, bestMatch, calculate_iou])
  exact h

/-- C10 counterexample: a prediction region with no `"score"` key makes
`evaluate_image` raise (model: `Except.error`) at threshold `0`, since the
missing score's default passes the `get`-filter and the tuple construction
then accesses `region["score"]` directly — the claim instead says the region
is included in the filtered predictions whenever the threshold is `≤ 0`. -/
theorem claim_C10_counterexample :
    evaluate_image
      { location := "g", annotated_regions :=
          [{ region := { xmin := 0, ymin := 0, xmax := 1, ymax := 1 }, score := none }] }
      { location := "p", annotated_regions :=
          [{ region := { xmin := 0, ymin := 0, xmax := 1, ymax := 1 }, score := none }] }
      0 (1/2) = .error () := by
  norm_num [evaluate_image, filterPreds_cons_none]

/-- C10 amended: a prediction region lacking a score is treated as score `0`
only inside the filter comparison: it is silently excluded whenever the
threshold is positive, but whenever the threshold is `≤ 0` the comprehension
evaluates `region["score"]` and raises a `KeyError` — a fail-fast error after
all, matching `evaluate_pr_naive`'s filter, which raises on a missing score at
any threshold. -/
theorem claim_C10_amended :
    ∀ (t : ℚ) (rb : Box) (rest : List Region),
      (0 < t →
        filterPreds t ({ region := rb, score := none } :: rest) = filterPreds t rest) ∧
      (t ≤ 0 →
        filterPreds t ({ region := rb, score := none } :: rest) = .error ()) ∧
      naiveImageFilter t ({ region := rb, score := none } :: rest) = .error () := by
  intro t rb rest
  refine ⟨?_, ?_, rfl⟩
  · intro ht
    rw [filterPreds_cons_none, if_neg (not_le.mpr ht)]
  · intro ht
    rw [filterPreds_cons_none, if_pos ht]

/-- Witness for C10 amended: the three behaviours at concrete thresholds `1`
and `0` for a single score-less region. -/
theorem claim_C10_amended_witness :
    filterPreds 1
        [{ region := { xmin := 0, ymin := 0, xmax := 1, ymax := 1 }, score := none }] =
      .ok [] ∧
    filterPreds 0
        [{ region := { xmin := 0, ymin := 0, xmax := 1, ymax := 1 }, score := none }] =
      .error () ∧
    naiveImageFilter 1
        [{ region := { xmin := 0, ymin := 0, xmax := 1, ymax := 1 }, score := none }] =
      .error () := by
  have h1 := claim_C10_amended 1 { xmin := 0, ymin := 0, xmax := 1, ymax := 1 } []
  have h0 := claim_C10_amended 0 { xmin := 0, ymin := 0, xmax := 1, ymax := 1 } []
  exact ⟨by rw [h1.1 one_pos]; rfl, h0.2.1 le_rfl, h1.2.2⟩

theorem pureFilter_restrict (t1 t2 : ℚ) (h12 : t1 ≤ t2) :
    ∀ rs : List Region, pureFilter t2 rs =
      (pureFilter t1 rs).filter (fun p => decide (t2 ≤ p.2)) := by
  intro rs
  induction rs with
  | nil => rfl
  | cons r rest ih =>
    rw [pureFilter_cons, pureFilter_cons]
    by_cases h2 : t2 ≤ r.score.getD 0
    · rw [if_pos h2, if_pos (le_trans h12 h2)]
      simp only [List.filter_cons, decide_eq_true_eq]
      rw [if_pos h2, ih]
    · rw [if_neg h2]
      by_cases h1 : t1 ≤ r.score.getD 0
      · rw [if_pos h1]
        simp only [List.filter_cons, decide_eq_true_eq]
        rw [if_neg h2, ih]
      · rw [if_neg h1, ih]

theorem sorted_pureFilter_takeWhile (t1 t2 : ℚ) (h12 : t1 ≤ t2)
    (rs : List Region) :
    keySort (fun p : Box × ℚ => -p.2) (pureFilter t2 rs) =
      (keySort (fun p : Box × ℚ => -p.2) (pureFilter t1 rs)).takeWhile
        (fun p => decide (t2 ≤ p.2)) := by
  rw [pureFilter_restrict t1 t2 h12, keySort_filter]
  refine filter_eq_takeWhile_of_sorted
    (fun x y : Box × ℚ => -x.2 ≤ -y.2) _ _ (keySort_sorted _ _) ?_
  intro a b hab hpb
  exact decide_eq_true (le_trans (of_decide_eq_true hpb) (neg_le_neg_iff.mp hab))

theorem evalCounts_tp_nonneg (gts : List Box) (ps : List (Box × ℚ)) (jmin : ℚ) :
    0 ≤ (evalCounts gts ps jmin).1 := by
  unfold evalCounts
  split
  · simp
  · have h := matchFold_tp_ge (withIdx 0 gts) jmin ps
      { tp := 0, fn := (gts.length : ℤ), fp := 0, matched := [] }
    simpa [stateTriple] using h

theorem evalCounts_tp_prefix (gts : List Box) (jmin : ℚ)
    (l1 l2 suf : List (Box × ℚ)) (hpre : l1 = l2 ++ suf) :
    (evalCounts gts l2 jmin).1 ≤ (evalCounts gts l1 jmin).1 := by
  by_cases hg : gts.length = 0
  · unfold evalCounts
    rw [if_pos (Or.inl hg), if_pos (Or.inl hg)]
  · by_cases h2 : l2.length = 0
    · have := evalCounts_tp_nonneg gts l1 jmin
      unfold evalCounts
      rw [if_pos (Or.inr h2)]
      simpa [evalCounts] using this
    · have h1 : ¬ l1.length = 0 := by
        rw [hpre, List.length_append]
        intro hc
        exact h2 (Nat.eq_zero_of_add_eq_zero_right hc)
      unfold evalCounts
      rw [if_neg (not_or.mpr ⟨hg, h1⟩), if_neg (not_or.mpr ⟨hg, h2⟩)]
      simp only [stateTriple]
      rw [hpre, matchFold_append]
      exact matchFold_tp_ge _ _ suf _

/-- C8: `evaluate_image` is monotone in the score threshold: raising the
threshold can only shrink the filtered-prediction list and can never raise the
returned TP count. -/
theorem claim_C8_threshold_monotone :
    ∀ (anns preds : Image) (t1 t2 jmin : ℚ) (f1 f2 : List (Box × ℚ))
      (r1 r2 : ℤ × ℤ × ℤ),
      t1 ≤ t2 →
      filterPreds t1 preds.annotated_regions = .ok f1 →
      filterPreds t2 preds.annotated_regions = .ok f2 →
      evaluate_image anns preds t1 jmin = .ok r1 →
      evaluate_image anns preds t2 jmin = .ok r2 →
      f2.length ≤ f1.length ∧ r2.1 ≤ r1.1 := by
  intro anns preds t1 t2 jmin f1 f2 r1 r2 h12 hf1 hf2 he1 he2
  have hq1 : f1 = pureFilter t1 preds.annotated_regions :=
    filterPreds_ok_eq _ _ _ hf1
  have hq2 : f2 = pureFilter t2 preds.annotated_regions :=
    filterPreds_ok_eq _ _ _ hf2
  constructor
  · rw [hq1, hq2, pureFilter_restrict t1 t2 h12]
    exact List.length_filter_le _ _
  · rw [evaluate_image_ok _ _ _ _ _ hf1] at he1
    rw [evaluate_image_ok _ _ _ _ _ hf2] at he2
    rw [(Except.ok.inj he1).symm, (Except.ok.inj he2).symm]
    have hkey : keySort (fun p : Box × ℚ => -p.2) f2 =
        (keySort (fun p : Box × ℚ => -p.2) f1).takeWhile
          (fun p => decide (t2 ≤ p.2)) := by
      rw [hq1, hq2]
      exact sorted_pureFilter_takeWhile t1 t2 h12 _
    refine evalCounts_tp_prefix _ jmin _ _
      ((keySort (fun p : Box × ℚ => -p.2) f1).dropWhile
        (fun p => decide (t2 ≤ p.2))) ?_
    rw [hkey]
    exact (List.takeWhile_append_dropWhile _ _).symm

/-- Witness for C8 at a concrete input: one ground truth, two predictions with
scores 0.9 and 0.3, thresholds 0.2 and 0.5: the filtered count drops from 2 to
1 and TP stays at 1. -/
theorem claim_C8_threshold_monotone_witness :
    ([({ xmin := 0, ymin := 0, xmax := 1, ymax := 1 }, (9/10 : ℚ))] :
        List (Box × ℚ)).length ≤
      ([({ xmin := 0, ymin := 0, xmax := 1, ymax := 1 }, (9/10 : ℚ)),
        ({ xmin := 0, ymin := 0, xmax := 1, ymax := 1 }, (3/10 : ℚ))] :
        List (Box × ℚ)).length ∧
    ((1 : ℤ), (0 : ℤ), (0 : ℤ)).1 ≤ ((1 : ℤ), (0 : ℤ), (1 : ℤ)).1 := by
  refine claim_C8_threshold_monotone
    { location := "g", annotated_regions :=
        [{ region := { xmin := 0, ymin := 0, xmax := 1, ymax := 1 }, score := none }] }
    { location := "p", annotated_regions :=
        [{ region := { xmin := 0, ymin := 0, xmax := 1, ymax := 1 }, score := some (9/10) },
          { region := { xmin := 0, ymin := 0, xmax := 1, ymax := 1 }, score := some (3/10) }] }
    (2/10) (5/10) (1/2) _ _ _ _ (by norm_num) ?_ ?_ ?_ ?_
  · norm_num [filterPreds_cons_some, filterPreds_nil]
  · norm_num [filterPreds_cons_some, filterPreds_nil]
  · norm_num [evaluate_image, filterPreds_cons_some, filterPreds_nil,
      evalCounts, stateTriple, keySort, keyInsert, withIdx, matchFold_cons,
      matchFold_nil, matchStep, bestMatch, calculate_iou]
  · norm_num [evaluate_image, filterPreds_cons_some, filterPreds_nil,
      evalCounts, stateTriple, keySort, keyInsert, withIdx, matchFold_cons,
      matchFold_nil, matchStep, bestMatch, calculate_iou]

theorem withIdx_ge (n : ℕ) :
    ∀ (l : List Box) (p : ℕ × Box), p ∈ withIdx n l → n ≤ p.1 := by
  intro l
  induction l generalizing n with
  | nil => intro p hp; exact absurd hp (List.not_mem_nil p)
  | cons b l ih =>
    intro p hp
    rcases List.mem_cons.mp hp with h | h
    · rw [h]
    · exact le_trans (Nat.le_succ n) (ih (n + 1) p h)

theorem withIdx_pairwise (n : ℕ) :
    ∀ l : List Box, (withIdx n l).Pairwise (fun p q => p.1 < q.1) := by
  intro l
  induction l generalizing n with
  | nil => exact List.Pairwise.nil
  | cons b l ih =>
    rw [withIdx, List.pairwise_cons]
    exact ⟨fun q hq => Nat.lt_of_lt_of_le (Nat.lt_succ_self n) (withIdx_ge (n + 1) l q hq),
      ih (n + 1)⟩

theorem mem_map_some (k : ℕ) (mS : List ℕ) : some k ∈ mS.map some ↔ k ∈ mS := by
  constructor
  · intro h
    obtain ⟨x, hx, he⟩ := List.mem_map.mp h
    rwa [← Option.some.inj he]
  · intro h
    exact List.mem_map_of_mem some h

theorem none_not_mem_map_some (mS : List ℕ) : (none : Option ℕ) ∉ mS.map some := by
  intro h
  obtain ⟨x, _, he⟩ := List.mem_map.mp h
  exact Option.noConfusion he

theorem bestMatch_nil (pre : Box) (m : List (Option ℕ)) (acc : ℚ × Option ℕ) :
    bestMatch pre m [] acc = acc := rfl

theorem bestMatch_cons (pre : Box) (m : List (Option ℕ)) (p : ℕ × Box)
    (rest : List (ℕ × Box)) (acc : ℚ × Option ℕ) :
    bestMatch pre m (p :: rest) acc =
      if some p.1 ∈ m then bestMatch pre m rest acc
      else if acc.1 < calculate_iou pre p.2 then
        bestMatch pre m rest (calculate_iou pre p.2, some p.1)
      else bestMatch pre m rest acc := rfl

theorem bestMatch_char (pre : Box) (m : List (Option ℕ)) :
    ∀ (l : List (ℕ × Box)) (acc : ℚ × Option ℕ),
      l.Pairwise (fun p q => p.1 < q.1) →
      (bestMatch pre m l acc = acc ∧
        ∀ p ∈ l, some p.1 ∉ m → calculate_iou pre p.2 ≤ acc.1) ∨
      (∃ p, p ∈ l ∧ some p.1 ∉ m ∧
        bestMatch pre m l acc = (calculate_iou pre p.2, some p.1) ∧
        acc.1 < calculate_iou pre p.2 ∧
        (∀ q ∈ l, some q.1 ∉ m → calculate_iou pre q.2 ≤ calculate_iou pre p.2) ∧
        (∀ q ∈ l, some q.1 ∉ m → q.1 < p.1 →
          calculate_iou pre q.2 < calculate_iou pre p.2)) := by
  intro l
  induction l with
  | nil =>
    intro acc _
    exact Or.inl ⟨rfl, fun p hp => absurd hp (List.not_mem_nil p)⟩
  | cons p rest ih =>
    intro acc hpw
    rw [List.pairwise_cons] at hpw
    rw [bestMatch_cons]
    by_cases hm : some p.1 ∈ m
    · rw [if_pos hm]
      rcases ih acc hpw.2 with ⟨he, hb⟩ | ⟨w, hw, hwm, he, hlt, hmax, hfirst⟩
      · refine Or.inl ⟨he, ?_⟩
        intro q hq hqm
        rcases List.mem_cons.mp hq with h | h
        · rw [h] at hqm; exact absurd hm hqm
        · exact hb q h hqm
      · refine Or.inr ⟨w, List.mem_cons_of_mem p hw, hwm, he, hlt, ?_, ?_⟩
        · intro q hq hqm
          rcases List.mem_cons.mp hq with h | h
          · rw [h] at hqm; exact absurd hm hqm
          · exact hmax q h hqm
        · intro q hq hqm hqlt
          rcases List.mem_cons.mp hq with h | h
          · rw [h] at hqm; exact absurd hm hqm
          · exact hfirst q h hqm hqlt
    · rw [if_neg hm]
      by_cases hlt : acc.1 < calculate_iou pre p.2
      · rw [if_pos hlt]
        rcases ih (calculate_iou pre p.2, some p.1) hpw.2 with
          ⟨he, hb⟩ | ⟨w, hw, hwm, he, hlt2, hmax, hfirst⟩
        · refine Or.inr ⟨p, List.mem_cons_self p rest, hm, he, hlt, ?_, ?_⟩
          · intro q hq hqm
            rcases List.mem_cons.mp hq with h | h
            · rw [h]
            · exact hb q h hqm
          · intro q hq hqm hqlt
            rcases List.mem_cons.mp hq with h | h
            · rw [h] at hqlt; exact absurd hqlt (lt_irrefl p.1)
            · exact absurd hqlt (Nat.not_lt.mpr (le_of_lt (hpw.1 q h)))
        · have hple : calculate_iou pre p.2 < calculate_iou pre w.2 := by
            simpa using hlt2
          refine Or.inr ⟨w, List.mem_cons_of_mem p hw, hwm, he,
            lt_trans hlt hple, ?_, ?_⟩
          · intro q hq hqm
            rcases List.mem_cons.mp hq with h | h
            · rw [h]; exact le_of_lt hple
            · exact hmax q h hqm
          · intro q hq hqm hqlt
            rcases List.mem_cons.mp hq with h | h
            · rw [h]; exact hple
            · exact hfirst q h hqm hqlt
      · rw [if_neg hlt]
        rcases ih acc hpw.2 with ⟨he, hb⟩ | ⟨w, hw, hwm, he, hlt2, hmax, hfirst⟩
        · refine Or.inl ⟨he, ?_⟩
          intro q hq hqm
          rcases List.mem_cons.mp hq with h | h
          · rw [h]; exact le_of_not_lt hlt
          · exact hb q h hqm
        · refine Or.inr ⟨w, List.mem_cons_of_mem p hw, hwm, he, hlt2, ?_, ?_⟩
          · intro q hq hqm
            rcases List.mem_cons.mp hq with h | h
            · rw [h]; exact le_trans (le_of_not_lt hlt) (le_of_lt hlt2)
            · exact hmax q h hqm
          · intro q hq hqm hqlt
            rcases List.mem_cons.mp hq with h | h
            · rw [h]; exact lt_of_le_of_lt (le_of_not_lt hlt) hlt2
            · exact hfirst q h hqm hqlt

theorem find?_first (P : ℕ × Box → Bool) :
    ∀ cs : List (ℕ × Box), cs.Pairwise (fun p q => p.1 < q.1) →
      ∀ x, x ∈ cs → P x = true → (∀ q ∈ cs, q.1 < x.1 → P q = false) →
      cs.find? P = some x := by
  intro cs
  induction cs with
  | nil => intro _ x hx; exact absurd hx (List.not_mem_nil x)
  | cons c cs ih =>
    intro hpw x hx hPx hbefore
    rw [List.pairwise_cons] at hpw
    rcases List.mem_cons.mp hx with h | h
    · rw [h] at hPx
      rw [List.find?_cons_of_pos _ hPx, h]
    · have hcx : c.1 < x.1 := hpw.1 x h
      have hPc : P c = false := hbefore c (List.mem_cons_self c cs) hcx
      rw [List.find?_cons_of_neg _ (by rw [hPc]; exact Bool.false_ne_true)]
      exact ih hpw.2 x h hPx
        (fun q hq hqlt => hbefore q (List.mem_cons_of_mem c hq) hqlt)

theorem mem_iouCandidates (pre : Box) (jmin : ℚ) (mS : List ℕ)
    (gts : List (ℕ × Box)) (p : ℕ × Box) :
    p ∈ iouCandidates pre jmin mS gts ↔
      p ∈ gts ∧ p.1 ∉ mS ∧ jmin ≤ calculate_iou pre p.2 := by
  simp [iouCandidates, List.mem_filter]

theorem specChoose_eq_none (pre : Box) (jmin : ℚ) (mS : List ℕ)
    (gts : List (ℕ × Box)) (h : iouCandidates pre jmin mS gts = []) :
    specChoose pre jmin mS gts = none := by
  simp [specChoose, h]

theorem specStep_of_none (gts : List (ℕ × Box)) (jmin : ℚ) (sc : SpecState)
    (pre : Box) (h : specChoose pre jmin sc.matched gts = none) :
    specStep gts jmin sc pre =
      { tp := sc.tp, fn := sc.fn, fp := sc.fp + 1, matched := sc.matched } := by
  unfold specStep
  rw [h]

theorem specStep_of_some (gts : List (ℕ × Box)) (jmin : ℚ) (sc : SpecState)
    (pre : Box) (p : ℕ × Box)
    (h : specChoose pre jmin sc.matched gts = some p) :
    specStep gts jmin sc pre =
      { tp := sc.tp + 1, fn := sc.fn - 1, fp := sc.fp,
        matched := p.1 :: sc.matched } := by
  unfold specStep
  rw [h]

theorem matchStep_eq_specStep (gts : List (ℕ × Box)) (jmin : ℚ) (hj : 0 < jmin)
    (hpw : gts.Pairwise (fun p q => p.1 < q.1)) (sc : SpecState) (pre : Box) :
    matchStep gts jmin
        { tp := sc.tp, fn := sc.fn, fp := sc.fp, matched := sc.matched.map some }
        pre =
      { tp := (specStep gts jmin sc pre).tp, fn := (specStep gts jmin sc pre).fn,
        fp := (specStep gts jmin sc pre).fp,
        matched := (specStep gts jmin sc pre).matched.map some } := by
  rcases bestMatch_char pre (sc.matched.map some) gts (0, none) hpw with
    ⟨he, hb⟩ | ⟨p, hp, hpm, he, hlt0, hmax, hfirst⟩
  · have hcs : iouCandidates pre jmin sc.matched gts = [] := by
      rw [List.eq_nil_iff_forall_not_mem]
      intro q hq
      rw [mem_iouCandidates] at hq
      have hqm : some q.1 ∉ sc.matched.map some := by
        rw [mem_map_some]; exact hq.2.1
      have := hb q hq.1 hqm
      exact absurd (le_trans hq.2.2 this) (not_le.mpr hj)
    rw [specStep_of_none gts jmin sc pre (specChoose_eq_none _ _ _ _ hcs)]
    simp only [matchStep, he]
    rw [if_neg (fun hc => absurd hc.1 (not_le.mpr hj))]
  · have hple : p.1 ∉ sc.matched := by
      intro hin
      exact hpm ((mem_map_some p.1 sc.matched).mpr hin)
    by_cases hjp : jmin ≤ calculate_iou pre p.2
    · have hpc : p ∈ iouCandidates pre jmin sc.matched gts :=
        (mem_iouCandidates pre jmin sc.matched gts p).mpr ⟨hp, hple, hjp⟩
      have hchoose : specChoose pre jmin sc.matched gts = some p := by
        have hcspw : (iouCandidates pre jmin sc.matched gts).Pairwise
            (fun p q => p.1 < q.1) := List.Pairwise.filter _ hpw
        unfold specChoose
        refine find?_first _ _ hcspw p hpc ?_ ?_
        · refine decide_eq_true ?_
          intro q hq
          rw [mem_iouCandidates] at hq
          have hqm : some q.1 ∉ sc.matched.map some := by
            rw [mem_map_some]; exact hq.2.1
          exact hmax q hq.1 hqm
        · intro q hq hqlt
          refine decide_eq_false ?_
          intro hall
          have hqc := hq
          rw [mem_iouCandidates] at hqc
          have hqm : some q.1 ∉ sc.matched.map some := by
            rw [mem_map_some]; exact hqc.2.1
          have h1 : calculate_iou pre q.2 < calculate_iou pre p.2 :=
            hfirst q hqc.1 hqm hqlt
          exact absurd (hall p hpc) (not_le.mpr h1)
      rw [specStep_of_some gts jmin sc pre p hchoose]
      simp only [matchStep, he]
      rw [if_pos ⟨hjp, hpm⟩]
      simp [List.map_cons]
    · have hcs : iouCandidates pre jmin sc.matched gts = [] := by
        rw [List.eq_nil_iff_forall_not_mem]
        intro q hq
        rw [mem_iouCandidates] at hq
        have hqm : some q.1 ∉ sc.matched.map some := by
          rw [mem_map_some]; exact hq.2.1
        exact hjp (le_trans hq.2.2 (hmax q hq.1 hqm))
      rw [specStep_of_none gts jmin sc pre (specChoose_eq_none _ _ _ _ hcs)]
      simp only [matchStep, he]
      rw [if_neg (fun hc => absurd hc.1 hjp)]

theorem specFold_nil (gts : List (ℕ × Box)) (jmin : ℚ) (sc : SpecState) :
    specFold gts jmin sc [] = sc := rfl

theorem specFold_cons (gts : List (ℕ × Box)) (jmin : ℚ) (sc : SpecState)
    (p : Box × ℚ) (l : List (Box × ℚ)) :
    specFold gts jmin sc (p :: l) =
      specFold gts jmin (specStep gts jmin sc p.1) l := rfl

theorem matchFold_eq_specFold (gts : List (ℕ × Box)) (jmin : ℚ) (hj : 0 < jmin)
    (hpw : gts.Pairwise (fun p q => p.1 < q.1)) :
    ∀ (l : List (Box × ℚ)) (sc : SpecState),
      matchFold gts jmin
          { tp := sc.tp, fn := sc.fn, fp := sc.fp,
            matched := sc.matched.map some } l =
        { tp := (specFold gts jmin sc l).tp, fn := (specFold gts jmin sc l).fn,
          fp := (specFold gts jmin sc l).fp,
          matched := (specFold gts jmin sc l).matched.map some } := by
  intro l
  induction l with
  | nil => intro sc; rfl
  | cons p l ih =>
    intro sc
    rw [matchFold_cons, specFold_cons, matchStep_eq_specStep gts jmin hj hpw sc p.1]
    exact ih (specStep gts jmin sc p.1)

theorem specChoose_nil_gts (pre : Box) (jmin : ℚ) (mS : List ℕ) :
    specChoose pre jmin mS [] = none := rfl

theorem specFold_nil_gts (jmin : ℚ) :
    ∀ (l : List (Box × ℚ)) (sc : SpecState),
      specFold [] jmin sc l =
        { tp := sc.tp, fn := sc.fn, fp := sc.fp + (l.length : ℤ),
          matched := sc.matched } := by
  intro l
  induction l with
  | nil => intro sc; simp [specFold_nil]
  | cons p l ih =>
    intro sc
    rw [specFold_cons,
      specStep_of_none [] jmin sc p.1 (specChoose_nil_gts p.1 jmin sc.matched), ih]
    simp only [SpecState.mk.injEq, List.length_cons, true_and, and_true]
    push_cast
    ring

theorem evalCounts_eq_specCounts (gts : List Box) (ps : List (Box × ℚ))
    (jmin : ℚ) (hj : 0 < jmin) :
    evalCounts gts ps jmin = specCounts gts ps jmin := by
  unfold evalCounts specCounts
  by_cases hg : gts.length = 0
  · rw [if_pos (Or.inl hg)]
    have hgts : gts = [] := List.length_eq_zero.mp hg
    subst hgts
    rw [show withIdx 0 ([] : List Box) = [] from rfl, specFold_nil_gts]
    simp [specTriple]
  · by_cases hp : ps.length = 0
    · rw [if_pos (Or.inr hp)]
      have hps : ps = [] := List.length_eq_zero.mp hp
      subst hps
      rw [specFold_nil]
      simp [specTriple]
    · rw [if_neg (not_or.mpr ⟨hg, hp⟩)]
      have h := matchFold_eq_specFold (withIdx 0 gts) jmin hj
        (withIdx_pairwise 0 gts) ps
        { tp := 0, fn := (gts.length : ℤ), fp := 0, matched := [] }
      simp only [List.map_nil] at h
      rw [h]
      simp [stateTriple, specTriple]

/-- C2 (amended): for every positive `Jaccard_min`, `evaluate_image`
implements exactly the spec's greedy matching rule: after the shared filter
and stable score-descending sort, each prediction in order is matched to the
not-yet-matched ground-truth box of strictly highest IoU among those with IoU
at least `Jaccard_min` (first in list order on exact ties), counting a TP and
decrementing FN, else a FP — `evaluate_image_spec` is that rule verbatim. The
positivity proviso is forced: at `Jaccard_min ≤ 0` the rule fails, see the
accompanying counterexample. Concretely, two predictions of scores 0.9 and
0.5 both overlapping the same single ground-truth box above `Jaccard_min =
0.5` yield TP = 1 (the higher-confidence one) and FP = 1 (the
lower-confidence one). -/
theorem claim_C2_greedy_matching :
    (∀ (anns preds : Image) (t jmin : ℚ), 0 < jmin →
      evaluate_image anns preds t jmin = evaluate_image_spec anns preds t jmin) ∧
    evaluate_image
      { location := "g", annotated_regions :=
          [{ region := { xmin := 0, ymin := 0, xmax := 10, ymax := 10 },
             score := none }] }
      { location := "p", annotated_regions :=
          [{ region := { xmin := 0, ymin := 0, xmax := 10, ymax := 10 },
             score := some (9/10) },
           { region := { xmin := 0, ymin := 0, xmax := 10, ymax := 9 },
             score := some (1/2) }] }
      0 (1/2) = .ok (1, 0, 1) := by
  constructor
  · intro anns preds t jmin hj
    unfold evaluate_image evaluate_image_spec
    cases hf : filterPreds t preds.annotated_regions with
    | error e => rfl
    | ok fl =>
      have h := evalCounts_eq_specCounts
        (anns.annotated_regions.map (fun r => r.region))
        (keySort (fun p : Box × ℚ => -p.2) fl) jmin hj
      simp only [h]
  · norm_num [evaluate_image, filterPreds_cons_some, filterPreds_nil,
      evalCounts, stateTriple, keySort, keyInsert, withIdx, matchFold_cons,
      matchFold_nil, matchStep, bestMatch, calculate_iou]

/-- Witness for C2: the matching-rule equivalence applied at the concrete
two-prediction, one-ground-truth input with `Jaccard_min = 1/2 > 0`. -/
theorem claim_C2_greedy_matching_witness :
    evaluate_image
      { location := "g", annotated_regions :=
          [{ region := { xmin := 0, ymin := 0, xmax := 10, ymax := 10 },
             score := none }] }
      { location := "p", annotated_regions :=
          [{ region := { xmin := 0, ymin := 0, xmax := 10, ymax := 10 },
             score := some (9/10) },
           { region := { xmin := 0, ymin := 0, xmax := 10, ymax := 9 },
             score := some (1/2) }] }
      0 (1/2) =
    evaluate_image_spec
      { location := "g", annotated_regions :=
          [{ region := { xmin := 0, ymin := 0, xmax := 10, ymax := 10 },
             score := none }] }
      { location := "p", annotated_regions :=
          [{ region := { xmin := 0, ymin := 0, xmax := 10, ymax := 10 },
             score := some (9/10) },
           { region := { xmin := 0, ymin := 0, xmax := 10, ymax := 9 },
             score := some (1/2) }] }
      0 (1/2) :=
  claim_C2_greedy_matching.1 _ _ 0 (1/2) (by norm_num)

/-- C2 counterexample: the matching rule as frozen fails at `Jaccard_min = 0`.
With one unit ground-truth box and predictions [disjoint box at score 0.9,
identical box at score 0.5] at threshold 0, `evaluate_image` returns
`(TP, FN, FP) = (2, -1, 0)`: the zero-IoU first prediction satisfies
`best_iou >= Jaccard_min` with `best_gt_idx = None`, so the code counts a TP
against the `None` sentinel and decrements FN, and the second prediction then
matches the still-unmatched real box for another TP — while the claimed rule
(`evaluate_image_spec`) gives `(1, 0, 1)`. -/
theorem claim_C2_counterexample :
    evaluate_image
      { location := "g", annotated_regions :=
          [{ region := { xmin := 0, ymin := 0, xmax := 1, ymax := 1 },
             score := none }] }
      { location := "p", annotated_regions :=
          [{ region := { xmin := 5, ymin := 5, xmax := 6, ymax := 6 },
             score := some (9/10) },
           { region := { xmin := 0, ymin := 0, xmax := 1, ymax := 1 },
             score := some (1/2) }] }
      0 0 = .ok (2, -1, 0) ∧
    evaluate_image_spec
      { location := "g", annotated_regions :=
          [{ region := { xmin := 0, ymin := 0, xmax := 1, ymax := 1 },
             score := none }] }
      { location := "p", annotated_regions :=
          [{ region := { xmin := 5, ymin := 5, xmax := 6, ymax := 6 },
             score := some (9/10) },
           { region := { xmin := 0, ymin := 0, xmax := 1, ymax := 1 },
             score := some (1/2) }] }
      0 0 = .ok (1, 0, 1) := by
  constructor
  · norm_num [evaluate_image, filterPreds_cons_some, filterPreds_nil,
      evalCounts, stateTriple, keySort, keyInsert, withIdx, matchFold_cons,
      matchFold_nil, matchStep, bestMatch, calculate_iou, Option.some_ne_none]
  · have hfp : filterPreds 0
        [{ region := { xmin := 5, ymin := 5, xmax := 6, ymax := 6 },
           score := some (9/10 : ℚ) },
         { region := { xmin := 0, ymin := 0, xmax := 1, ymax := 1 },
           score := some (1/2 : ℚ) }] =
        .ok [(({ xmin := 5, ymin := 5, xmax := 6, ymax := 6 } : Box), (9/10 : ℚ)),
             (({ xmin := 0, ymin := 0, xmax := 1, ymax := 1 } : Box), (1/2 : ℚ))] := by
      norm_num [filterPreds_cons_some, filterPreds_nil]
    have hks : keySort (fun p : Box × ℚ => -p.2)
        [(({ xmin := 5, ymin := 5, xmax := 6, ymax := 6 } : Box), (9/10 : ℚ)),
         (({ xmin := 0, ymin := 0, xmax := 1, ymax := 1 } : Box), (1/2 : ℚ))] =
        [(({ xmin := 5, ymin := 5, xmax := 6, ymax := 6 } : Box), (9/10 : ℚ)),
         (({ xmin := 0, ymin := 0, xmax := 1, ymax := 1 } : Box), (1/2 : ℚ))] := by
      norm_num [keySort, keyInsert]
    have hcs1 : iouCandidates { xmin := 5, ymin := 5, xmax := 6, ymax := 6 } 0 []
        [((0 : ℕ), ({ xmin := 0, ymin := 0, xmax := 1, ymax := 1 } : Box))] =
        [((0 : ℕ), ({ xmin := 0, ymin := 0, xmax := 1, ymax := 1 } : Box))] := by
      norm_num [iouCandidates, List.filter_cons, List.filter_nil, calculate_iou]
    have hch1 : specChoose { xmin := 5, ymin := 5, xmax := 6, ymax := 6 } 0 []
        [((0 : ℕ), ({ xmin := 0, ymin := 0, xmax := 1, ymax := 1 } : Box))] =
        some ((0 : ℕ), ({ xmin := 0, ymin := 0, xmax := 1, ymax := 1 } : Box)) := by
      simp only [specChoose]
      rw [hcs1]
      refine List.find?_cons_of_pos _ (decide_eq_true ?_)
      intro q hq
      have hqe : q =
          ((0 : ℕ), ({ xmin := 0, ymin := 0, xmax := 1, ymax := 1 } : Box)) :=
        List.mem_singleton.mp hq
      subst hqe
      exact le_rfl
    have hch2 : specChoose { xmin := 0, ymin := 0, xmax := 1, ymax := 1 } 0
        [(0 : ℕ)]
        [((0 : ℕ), ({ xmin := 0, ymin := 0, xmax := 1, ymax := 1 } : Box))] =
        none :=
      specChoose_eq_none _ _ _ _ (by
        norm_num [iouCandidates, List.filter_cons, List.filter_nil])
    unfold evaluate_image_spec
    simp only [hfp, hks, specCounts, List.map_cons, List.map_nil,
      List.length_cons, List.length_nil, withIdx, specFold_cons, specFold_nil,
      specStep, hch1, hch2, specTriple]
    norm_num

theorem naiveImageFilter_cons_none (t : ℚ) (rb : Box) (rest : List Region) :
    naiveImageFilter t ({ region := rb, score := none } :: rest) = .error () := rfl

theorem naiveImageFilter_cons_some (t : ℚ) (rb : Box) (s : ℚ) (rest : List Region) :
    naiveImageFilter t ({ region := rb, score := some s } :: rest) =
      match naiveImageFilter t rest with
      | .error e => .error e
      | .ok l => .ok (if t ≤ s then (rb, s) :: l else l) := rfl

theorem naiveImageFilter_isOk (t : ℚ) :
    ∀ rs : List Region, scoresPresent rs → ∃ l, naiveImageFilter t rs = .ok l := by
  intro rs
  induction rs with
  | nil => intro _; exact ⟨[], rfl⟩
  | cons r rest ih =>
    intro h
    obtain ⟨rb, rsc⟩ := r
    cases rsc with
    | none => exact absurd rfl (h ⟨rb, none⟩ (List.mem_cons_self _ _))
    | some s =>
      obtain ⟨l, hl⟩ := ih (fun x hx => h x (List.mem_cons_of_mem _ hx))
      refine ⟨if t ≤ s then (rb, s) :: l else l, ?_⟩
      rw [naiveImageFilter_cons_some, hl]

theorem extractPairs_cons_none (rb : Box) (rest : List Region) :
    extractPairs ({ region := rb, score := none } :: rest) = .error () := rfl

theorem extractPairs_cons_some (rb : Box) (s : ℚ) (rest : List Region) :
    extractPairs ({ region := rb, score := some s } :: rest) =
      match extractPairs rest with
      | .error e => .error e
      | .ok l => .ok ((rb, s) :: l) := rfl

theorem extractPairs_of_scoresPresent :
    ∀ rs : List Region, scoresPresent rs → extractPairs rs = .ok (pairsOf rs) := by
  intro rs
  induction rs with
  | nil => intro _; rfl
  | cons r rest ih =>
    intro h
    obtain ⟨rb, rsc⟩ := r
    cases rsc with
    | none => exact absurd rfl (h ⟨rb, none⟩ (List.mem_cons_self _ _))
    | some s =>
      rw [extractPairs_cons_some, ih (fun x hx => h x (List.mem_cons_of_mem _ hx))]
      rfl

theorem buildDict_nil : buildDict [] = .ok [] := rfl

theorem buildDict_cons (img : Image) (rest : List Image) :
    buildDict (img :: rest) =
      match extractPairs img.annotated_regions with
      | .error e => .error e
      | .ok pairs =>
        match buildDict rest with
        | .error e => .error e
        | .ok d =>
          .ok ((img.location, keySort (fun p : Box × ℚ => -p.2) pairs) :: d) := rfl

theorem buildDict_of_scoresPresent :
    ∀ imgs : List Image, (∀ img ∈ imgs, scoresPresent img.annotated_regions) →
      buildDict imgs = .ok (sortedDict imgs) := by
  intro imgs
  induction imgs with
  | nil => intro _; rfl
  | cons img rest ih =>
    intro h
    rw [buildDict_cons,
      extractPairs_of_scoresPresent _ (h img (List.mem_cons_self _ _)),
      ih (fun x hx => h x (List.mem_cons_of_mem _ hx))]
    rfl

theorem dictGet_nil (k : String) : dictGet [] k = none := rfl

theorem dictGet_cons (e : String × List (Box × ℚ))
    (d : List (String × List (Box × ℚ))) (k : String) :
    dictGet (e :: d) k =
      match dictGet d k with
      | some v => some v
      | none => if e.1 = k then some e.2 else none := rfl

theorem dictGet_eq_none (k : String) :
    ∀ d : List (String × List (Box × ℚ)),
      k ∉ d.map (fun e => e.1) → dictGet d k = none := by
  intro d
  induction d with
  | nil => intro _; rfl
  | cons e d ih =>
    intro h
    rw [List.map_cons, List.mem_cons, not_or] at h
    rw [dictGet_cons, ih h.2]
    show (if e.1 = k then some e.2 else none) = none
    rw [if_neg (fun he => h.1 he.symm)]

theorem dictGet_isSome (k : String) :
    ∀ d : List (String × List (Box × ℚ)),
      k ∈ d.map (fun e => e.1) → ∃ v, dictGet d k = some v := by
  intro d
  induction d with
  | nil => intro h; exact absurd h (List.not_mem_nil k)
  | cons e d ih =>
    intro h
    rw [dictGet_cons]
    cases hd : dictGet d k with
    | some v => exact ⟨v, rfl⟩
    | none =>
      rw [List.map_cons, List.mem_cons] at h
      rcases h with h | h
      · exact ⟨e.2, by rw [if_pos h.symm]⟩
      · obtain ⟨v, hv⟩ := ih h
        rw [hv] at hd
        exact absurd hd (by simp)

theorem dictGet_cons_of_mem (e : String × List (Box × ℚ)) (k : String)
    (d : List (String × List (Box × ℚ))) (h : k ∈ d.map (fun x => x.1)) :
    dictGet (e :: d) k = dictGet d k := by
  obtain ⟨v, hv⟩ := dictGet_isSome k d h
  rw [dictGet_cons, hv]

theorem dictGet_append_single (e : String × List (Box × ℚ)) (k : String) :
    ∀ d : List (String × List (Box × ℚ)),
      dictGet (d ++ [e]) k = if e.1 = k then some e.2 else dictGet d k := by
  intro d
  induction d with
  | nil => by_cases he : e.1 = k <;> simp [dictGet_cons, dictGet_nil, he]
  | cons c d ih =>
    rw [List.cons_append, dictGet_cons, ih]
    by_cases he : e.1 = k
    · rw [if_pos he, if_pos he]
    · rw [if_neg he, if_neg he, dictGet_cons]

theorem pureFilter_eq_pairsOf_filter (t : ℚ) :
    ∀ rs : List Region,
      pureFilter t rs = (pairsOf rs).filter (fun p => decide (t ≤ p.2)) := by
  intro rs
  induction rs with
  | nil => rfl
  | cons r rest ih =>
    rw [pureFilter_cons]
    show _ = List.filter _ ((r.region, r.score.getD 0) :: pairsOf rest)
    rw [List.filter_cons]
    by_cases h : t ≤ r.score.getD 0
    · rw [if_pos h, if_pos (decide_eq_true h), ih]
    · have hd : decide (t ≤ ((r.region, r.score.getD 0) : Box × ℚ).2) = false :=
        decide_eq_false h
      rw [if_neg h, hd, if_neg Bool.false_ne_true, ih]

theorem pureFilter_mk (t : ℚ) :
    ∀ l : List (Box × ℚ),
      pureFilter t (l.map (fun p => { region := p.1, score := some p.2 })) =
        l.filter (fun p => decide (t ≤ p.2)) := by
  intro l
  induction l with
  | nil => rfl
  | cons p l ih =>
    rw [List.map_cons, pureFilter_cons, List.filter_cons]
    by_cases h : t ≤ p.2
    · rw [if_pos (by simpa using h), if_pos (decide_eq_true h), ih]
      simp
    · rw [if_neg (by simpa using h),
        show decide (t ≤ p.2) = false from decide_eq_false h,
        if_neg Bool.false_ne_true, ih]

theorem scoresPresent_mk (l : List (Box × ℚ)) :
    scoresPresent (l.map (fun p => { region := p.1, score := some p.2 })) := by
  intro r hr
  obtain ⟨p, _, he⟩ := List.mem_map.mp hr
  rw [← he]
  simp

theorem optImage_val (sp : List (String × List (Box × ℚ))) (jmin t : ℚ) (g : Image) :
    optImage sp jmin t g =
      .ok (evalCounts (g.annotated_regions.map (fun r => r.region))
        (keySort (fun p : Box × ℚ => -p.2)
          (((dictGet sp g.location).getD []).filter (fun p => decide (t ≤ p.2))))
        jmin) := by
  unfold optImage
  rw [evaluate_image_ok _ _ _ _ _
    (filterPreds_of_scoresPresent t _ (scoresPresent_mk _))]
  rw [pureFilter_mk, List.filter_filter]
  simp only [Bool.and_self]

theorem optImage_none (sp : List (String × List (Box × ℚ))) (jmin t : ℚ)
    (g : Image) (h : dictGet sp g.location = none) :
    optImage sp jmin t g = .ok (0, (g.annotated_regions.length : ℤ), 0) := by
  rw [optImage_val, h]
  simp [evalCounts, keySort, List.length_map]

theorem dictGet_sortedDict_some (k : String) :
    ∀ (imgs : List Image) (v : List (Box × ℚ)),
      dictGet (sortedDict imgs) k = some v →
      ∃ img ∈ imgs, img.location = k ∧
        v = keySort (fun p : Box × ℚ => -p.2) (pairsOf img.annotated_regions) := by
  intro imgs
  induction imgs with
  | nil =>
    intro v hv
    exact absurd hv (by rw [show sortedDict [] = [] from rfl, dictGet_nil]; simp)
  | cons img rest ih =>
    intro v hv
    rw [show sortedDict (img :: rest) =
      (img.location, keySort (fun p : Box × ℚ => -p.2) (pairsOf img.annotated_regions)) ::
        sortedDict rest from rfl, dictGet_cons] at hv
    cases hd : dictGet (sortedDict rest) k with
    | some w =>
      rw [hd] at hv
      obtain ⟨img2, hm, hl, he⟩ := ih w (by rw [hd])
      exact ⟨img2, List.mem_cons_of_mem img hm, hl, by rw [← Option.some.inj hv, he]⟩
    | none =>
      rw [hd] at hv
      by_cases hk : img.location = k
      · rw [if_pos hk] at hv
        exact ⟨img, List.mem_cons_self img rest, hk, (Option.some.inj hv).symm⟩
      · rw [if_neg hk] at hv
        exact absurd hv (by simp)

theorem filter_restrict_pairs (t1 t2 : ℚ) (h12 : t1 ≤ t2) (V : List (Box × ℚ)) :
    V.filter (fun p => decide (t2 ≤ p.2)) =
      (V.filter (fun p => decide (t1 ≤ p.2))).filter (fun p => decide (t2 ≤ p.2)) := by
  rw [List.filter_filter]
  refine (List.filter_congr ?_).symm
  intro p _
  by_cases h2 : t2 ≤ p.2
  · rw [decide_eq_true h2, decide_eq_true (le_trans h12 h2)]
    rfl
  · rw [decide_eq_false h2]
    simp

set_option maxHeartbeats 2000000 in
theorem evalCounts_tp_antitone_sorted (gts : List Box) (jmin t1 t2 : ℚ)
    (h12 : t1 ≤ t2) (V : List (Box × ℚ))
    (hs : V.Pairwise (fun x y : Box × ℚ => -x.2 ≤ -y.2)) :
    (evalCounts gts (keySort (fun p : Box × ℚ => -p.2)
        (V.filter (fun p => decide (t2 ≤ p.2)))) jmin).1 ≤
      (evalCounts gts (keySort (fun p : Box × ℚ => -p.2)
        (V.filter (fun p => decide (t1 ≤ p.2)))) jmin).1 := by
  have hs1 : (V.filter (fun p => decide (t1 ≤ p.2))).Pairwise
      (fun x y : Box × ℚ => -x.2 ≤ -y.2) := List.Pairwise.filter _ hs
  have hs2 : (V.filter (fun p => decide (t2 ≤ p.2))).Pairwise
      (fun x y : Box × ℚ => -x.2 ≤ -y.2) := List.Pairwise.filter _ hs
  rw [keySort_of_sorted (fun p : Box × ℚ => -p.2) _ hs1]
  rw [keySort_of_sorted (fun p : Box × ℚ => -p.2) _ hs2]
  rw [filter_restrict_pairs t1 t2 h12 V]
  rw [filter_eq_takeWhile_of_sorted (fun x y : Box × ℚ => -x.2 ≤ -y.2) _ _ hs1
      (fun a b hab hpb => decide_eq_true
        (le_trans (of_decide_eq_true hpb) (neg_le_neg_iff.mp hab)))]
  have happ : V.filter (fun p => decide (t1 ≤ p.2)) =
      (V.filter (fun p => decide (t1 ≤ p.2))).takeWhile (fun p => decide (t2 ≤ p.2)) ++
        (V.filter (fun p => decide (t1 ≤ p.2))).dropWhile (fun p => decide (t2 ≤ p.2)) :=
    (List.takeWhile_append_dropWhile (fun p => decide (t2 ≤ p.2))
      (V.filter (fun p => decide (t1 ≤ p.2)))).symm
  exact evalCounts_tp_prefix gts jmin _ _
    ((V.filter (fun p => decide (t1 ≤ p.2))).dropWhile (fun p => decide (t2 ≤ p.2)))
    happ

theorem optImage_facts (imgs : List Image) (jmin : ℚ) (g : Image)
    (t1 t2 : ℚ) (h12 : t1 ≤ t2) :
    ∃ c1 c2,
      optImage (sortedDict imgs) jmin t1 g = .ok c1 ∧
      optImage (sortedDict imgs) jmin t2 g = .ok c2 ∧
      c1.1 + c1.2.1 = (g.annotated_regions.length : ℤ) ∧
      c2.1 + c2.2.1 = (g.annotated_regions.length : ℤ) ∧
      c2.1 ≤ c1.1 ∧ 0 ≤ c2.1 := by
  have hsorted : ((dictGet (sortedDict imgs) g.location).getD []).Pairwise
      (fun x y : Box × ℚ => -x.2 ≤ -y.2) := by
    cases hd : dictGet (sortedDict imgs) g.location with
    | none => simp
    | some v =>
      obtain ⟨img, _, _, he⟩ := dictGet_sortedDict_some g.location imgs v hd
      rw [Option.getD_some, he]
      exact keySort_sorted _ _
  refine ⟨_, _, optImage_val _ jmin t1 g, optImage_val _ jmin t2 g, ?_, ?_, ?_, ?_⟩
  · have h := evalCounts_saturation (g.annotated_regions.map (fun r => r.region))
      (keySort (fun p : Box × ℚ => -p.2)
        (((dictGet (sortedDict imgs) g.location).getD []).filter
          (fun p => decide (t1 ≤ p.2)))) jmin
    rw [List.length_map] at h
    exact h.1
  · have h := evalCounts_saturation (g.annotated_regions.map (fun r => r.region))
      (keySort (fun p : Box × ℚ => -p.2)
        (((dictGet (sortedDict imgs) g.location).getD []).filter
          (fun p => decide (t2 ≤ p.2)))) jmin
    rw [List.length_map] at h
    exact h.1
  · exact evalCounts_tp_antitone_sorted _ jmin t1 t2 h12 _ hsorted
  · exact evalCounts_tp_nonneg _ _ _

theorem optTotals_nil (sp : List (String × List (Box × ℚ))) (jmin t : ℚ) :
    optTotals sp jmin t [] = .ok (0, 0, 0) := rfl

theorem optTotals_cons (sp : List (String × List (Box × ℚ))) (jmin t : ℚ)
    (g : Image) (gs : List Image) :
    optTotals sp jmin t (g :: gs) =
      match optImage sp jmin t g with
      | .error e => .error e
      | .ok c =>
        match optTotals sp jmin t gs with
        | .error e => .error e
        | .ok acc => .ok (addCounts c acc) := rfl

theorem optTotals_facts (imgs : List Image) (jmin t1 t2 : ℚ) (h12 : t1 ≤ t2) :
    ∀ gs : List Image, ∃ C1 C2,
      optTotals (sortedDict imgs) jmin t1 gs = .ok C1 ∧
      optTotals (sortedDict imgs) jmin t2 gs = .ok C2 ∧
      C1.1 + C1.2.1 = (gs.map (fun g => (g.annotated_regions.length : ℤ))).sum ∧
      C2.1 + C2.2.1 = (gs.map (fun g => (g.annotated_regions.length : ℤ))).sum ∧
      C2.1 ≤ C1.1 ∧ 0 ≤ C2.1 := by
  intro gs
  induction gs with
  | nil => exact ⟨(0, 0, 0), (0, 0, 0), rfl, rfl, by simp, by simp, le_rfl, le_rfl⟩
  | cons g gs ih =>
    obtain ⟨c1, c2, hc1, hc2, hs1, hs2, hmono, hnn⟩ :=
      optImage_facts imgs jmin g t1 t2 h12
    obtain ⟨C1, C2, hC1, hC2, hS1, hS2, hMono, hNn⟩ := ih
    refine ⟨addCounts c1 C1, addCounts c2 C2, ?_, ?_, ?_, ?_, ?_, ?_⟩
    · rw [optTotals_cons, hc1, hC1]
    · rw [optTotals_cons, hc2, hC2]
    · simp only [addCounts, List.map_cons, List.sum_cons]
      rw [← hs1, ← hS1]
      ring
    · simp only [addCounts, List.map_cons, List.sum_cons]
      rw [← hs2, ← hS2]
      ring
    · simp only [addCounts]
      exact add_le_add hmono hMono
    · simp only [addCounts]
      exact add_nonneg hnn hNn

theorem optSweep_nil (sp : List (String × List (Box × ℚ))) (gs : List Image)
    (jmin : ℚ) : optSweep sp gs jmin [] = .ok [] := rfl

theorem optSweep_cons (sp : List (String × List (Box × ℚ))) (gs : List Image)
    (jmin t : ℚ) (ts : List ℚ) :
    optSweep sp gs jmin (t :: ts) =
      match optTotals sp jmin t gs with
      | .error e => .error e
      | .ok c =>
        match optSweep sp gs jmin ts with
        | .error e => .error e
        | .ok rs => .ok (mkRec c t :: rs) := rfl

theorem optSweep_map (sp : List (String × List (Box × ℚ))) (gs : List Image)
    (jmin : ℚ) (F : ℚ → ℤ × ℤ × ℤ)
    (hF : ∀ t, optTotals sp jmin t gs = .ok (F t)) :
    ∀ ts : List ℚ, optSweep sp gs jmin ts = .ok (ts.map (fun t => mkRec (F t) t)) := by
  intro ts
  induction ts with
  | nil => rfl
  | cons t ts ih =>
    rw [optSweep_cons, hF t, ih]
    rfl

theorem naiveSweep_nil (anns preds : Doc) (jmin : ℚ) :
    naiveSweep anns preds jmin [] = .ok [] := rfl

theorem naiveSweep_cons (anns preds : Doc) (jmin t : ℚ) (ts : List ℚ) :
    naiveSweep anns preds jmin (t :: ts) =
      match naiveTotals jmin t (anns.images.zip preds.images) with
      | .error e => .error e
      | .ok c =>
        match naiveSweep anns preds jmin ts with
        | .error e => .error e
        | .ok rs => .ok (mkRec c t :: rs) := rfl

theorem naiveSweep_map (anns preds : Doc) (jmin : ℚ) (F : ℚ → ℤ × ℤ × ℤ)
    (hF : ∀ t, naiveTotals jmin t (anns.images.zip preds.images) = .ok (F t)) :
    ∀ ts : List ℚ,
      naiveSweep anns preds jmin ts = .ok (ts.map (fun t => mkRec (F t) t)) := by
  intro ts
  induction ts with
  | nil => rfl
  | cons t ts ih =>
    rw [naiveSweep_cons, hF t, ih]
    rfl

theorem thresholdsAsc_pairwise (N : ℕ) :
    (thresholdsAsc N).Pairwise (fun a b : ℚ => a < b) := by
  unfold thresholdsAsc
  cases N with
  | zero => simp [List.range_succ]
  | succ n =>
    rw [List.pairwise_map]
    refine List.Pairwise.imp ?_ (List.pairwise_lt_range (n + 2))
    intro a b hab
    have hN : (0 : ℚ) < ((n + 1 : ℕ) : ℚ) := by positivity
    rw [div_eq_mul_inv, div_eq_mul_inv]
    exact mul_lt_mul_of_pos_right (by exact_mod_cast hab) (inv_pos.mpr hN)

theorem keySort_negid_reverse (l : List ℚ) (h : l.Pairwise (fun a b : ℚ => a < b)) :
    keySort (fun x : ℚ => -x) l = l.reverse := by
  refine keySort_of_strictDesc (fun x : ℚ => -x) l ?_
  exact h.imp (fun hab => neg_lt_neg hab)

theorem keySort_threshold_rev (F : ℚ → ℤ × ℤ × ℤ) (ts : List ℚ)
    (h : ts.Pairwise (fun a b : ℚ => a < b)) :
    keySort (fun r : RecEntry => r.threshold)
        ((ts.map (fun t => mkRec (F t) t)).reverse) =
      ts.map (fun t => mkRec (F t) t) := by
  have hp : (ts.map (fun t => mkRec (F t) t)).Pairwise
      (fun r1 r2 : RecEntry => r1.threshold < r2.threshold) := by
    refine List.Pairwise.map _ ?_ h
    intro a b hab
    exact hab
  have hrev : ((ts.map (fun t => mkRec (F t) t)).reverse).Pairwise
      (fun r1 r2 : RecEntry => r2.threshold < r1.threshold) := by
    rw [List.pairwise_reverse]
    exact hp
  rw [keySort_of_strictDesc (fun r : RecEntry => r.threshold) _ hrev,
    List.reverse_reverse]

theorem evaluate_pr_map (anns preds : Doc) (N : ℕ) (jmin : ℚ)
    (sp : List (String × List (Box × ℚ))) (F : ℚ → ℤ × ℤ × ℤ)
    (hd : buildDict preds.images = .ok sp)
    (hF : ∀ t, optTotals sp jmin t anns.images = .ok (F t)) :
    evaluate_pr anns preds N jmin =
      .ok ((thresholdsAsc N).map (fun t => mkRec (F t) t)) := by
  have h1 : optSweep sp anns.images jmin
      (keySort (fun x : ℚ => -x) (thresholdsAsc N)) =
      .ok (((thresholdsAsc N).map (fun t => mkRec (F t) t)).reverse) := by
    rw [keySort_negid_reverse _ (thresholdsAsc_pairwise N),
      optSweep_map sp anns.images jmin F hF, List.map_reverse]
  unfold evaluate_pr
  simp only [hd, h1]
  rw [keySort_threshold_rev F (thresholdsAsc N) (thresholdsAsc_pairwise N)]

theorem optTotals_isOk (sp : List (String × List (Box × ℚ))) (jmin t : ℚ) :
    ∀ gs : List Image, ∃ C, optTotals sp jmin t gs = .ok C := by
  intro gs
  induction gs with
  | nil => exact ⟨(0, 0, 0), rfl⟩
  | cons g gs ih =>
    obtain ⟨C, hC⟩ := ih
    refine ⟨addCounts (evalCounts (g.annotated_regions.map (fun r => r.region))
      (keySort (fun p : Box × ℚ => -p.2)
        (((dictGet sp g.location).getD []).filter (fun p => decide (t ≤ p.2))))
      jmin) C, ?_⟩
    rw [optTotals_cons, optImage_val, hC]

theorem mkRec_threshold (c : ℤ × ℤ × ℤ) (t : ℚ) : (mkRec c t).threshold = t := rfl

theorem mkRec_recall_mono (c1 c2 : ℤ × ℤ × ℤ) (t1 t2 : ℚ) (G : ℤ)
    (h1 : c1.1 + c1.2.1 = G) (h2 : c2.1 + c2.2.1 = G) (hm : c2.1 ≤ c1.1) :
    (mkRec c2 t2).recallRate ≤ (mkRec c1 t1).recallRate := by
  show (if 0 < c2.1 + c2.2.1 then (c2.1 : ℚ) / ((c2.1 : ℚ) + (c2.2.1 : ℚ)) else 0) ≤
    (if 0 < c1.1 + c1.2.1 then (c1.1 : ℚ) / ((c1.1 : ℚ) + (c1.2.1 : ℚ)) else 0)
  rw [h1, h2]
  by_cases hG : 0 < G
  · rw [if_pos hG, if_pos hG]
    have hGq : (0 : ℚ) < (G : ℚ) := by exact_mod_cast hG
    have hc1 : (c1.1 : ℚ) + (c1.2.1 : ℚ) = (G : ℚ) := by exact_mod_cast h1
    have hc2 : (c2.1 : ℚ) + (c2.2.1 : ℚ) = (G : ℚ) := by exact_mod_cast h2
    rw [hc1, hc2]
    exact (div_le_div_iff_of_pos_right hGq).mpr (by exact_mod_cast hm)
  · rw [if_neg hG, if_neg hG]

/-- C9 counterexample: a document with one perfectly matching prediction of
score 0.5 gives precision 1 at threshold 0 and precision 0 at threshold 1
(where no prediction passes), so precision strictly decreases as the threshold
increases — the claim instead says precision is non-decreasing. -/
theorem claim_C9_counterexample :
    ∃ rs, evaluate_pr
        { images := [{ location := "a", annotated_regions :=
            [{ region := { xmin := 0, ymin := 0, xmax := 1, ymax := 1 },
               score := none }] }] }
        { images := [{ location := "a", annotated_regions :=
            [{ region := { xmin := 0, ymin := 0, xmax := 1, ymax := 1 },
               score := some (1/2) }] }] }
        1 (1/2) = .ok rs ∧
      ¬ rs.Pairwise (fun r1 r2 => r1.precision ≤ r2.precision) := by
  refine ⟨[{ precision := 1, recallRate := 1, threshold := 0 },
    { precision := 0, recallRate := 0, threshold := 1 }], ?_, ?_⟩
  · norm_num [evaluate_pr, buildDict, extractPairs, thresholdsAsc,
      List.range_succ, keySort, keyInsert, optSweep, optTotals, optImage,
      dictGet, evaluate_image, filterPreds, evalCounts, stateTriple,
      matchFold, matchStep, bestMatch, withIdx, calculate_iou, mkRec,
      addCounts]
  · intro hpw
    rw [List.pairwise_cons] at hpw
    have := hpw.1 { precision := 0, recallRate := 0, threshold := 1 }
      (List.mem_cons_self _ _)
    norm_num at this

/-- C9 amended: over a fixed pair of documents whose prediction regions all
carry scores, the threshold sweep's output list is ordered by ascending
threshold and its recall is non-increasing; precision, however, need not be
non-decreasing (see the counterexample). -/
theorem claim_C9_amended :
    ∀ (anns preds : Doc) (N : ℕ) (jmin : ℚ),
      docScoresPresent preds →
      ∃ rs, evaluate_pr anns preds N jmin = .ok rs ∧
        rs.Pairwise (fun r1 r2 => r1.threshold ≤ r2.threshold ∧
          r2.recallRate ≤ r1.recallRate) := by
  intro anns preds N jmin hsc
  have hd : buildDict preds.images = .ok (sortedDict preds.images) :=
    buildDict_of_scoresPresent preds.images hsc
  have hF : ∀ t, optTotals (sortedDict preds.images) jmin t anns.images =
      .ok (okValue (optTotals (sortedDict preds.images) jmin t anns.images)) := by
    intro t
    obtain ⟨C, hC⟩ := optTotals_isOk (sortedDict preds.images) jmin t anns.images
    rw [hC]
    rfl
  refine ⟨(thresholdsAsc N).map (fun t =>
    mkRec (okValue (optTotals (sortedDict preds.images) jmin t anns.images)) t),
    evaluate_pr_map anns preds N jmin (sortedDict preds.images) _ hd hF, ?_⟩
  rw [List.pairwise_map]
  refine List.Pairwise.imp ?_ (thresholdsAsc_pairwise N)
  intro t1 t2 h12
  obtain ⟨C1, C2, hC1, hC2, hS1, hS2, hMono, _⟩ :=
    optTotals_facts preds.images jmin t1 t2 (le_of_lt h12) anns.images
  have he1 : okValue (optTotals (sortedDict preds.images) jmin t1 anns.images) = C1 := by
    rw [hC1]; rfl
  have he2 : okValue (optTotals (sortedDict preds.images) jmin t2 anns.images) = C2 := by
    rw [hC2]; rfl
  constructor
  · rw [mkRec_threshold, mkRec_threshold]
    exact le_of_lt h12
  · rw [he1, he2]
    exact mkRec_recall_mono C1 C2 t1 t2
      ((anns.images.map (fun g => (g.annotated_regions.length : ℤ))).sum) hS1 hS2 hMono

/-- Witness for C9 amended at a concrete document pair: one image, two scored
predictions. -/
theorem claim_C9_amended_witness :
    ∃ rs, evaluate_pr
        { images := [{ location := "w", annotated_regions :=
            [{ region := { xmin := 0, ymin := 0, xmax := 2, ymax := 2 },
               score := none }] }] }
        { images := [{ location := "w", annotated_regions :=
            [{ region := { xmin := 0, ymin := 0, xmax := 2, ymax := 2 },
               score := some (3/4) },
             { region := { xmin := 5, ymin := 5, xmax := 6, ymax := 6 },
               score := some (1/4) }] }] }
        2 (1/2) = .ok rs ∧
      rs.Pairwise (fun r1 r2 => r1.threshold ≤ r2.threshold ∧
        r2.recallRate ≤ r1.recallRate) :=
  claim_C9_amended _ _ 2 (1/2) (by simp [docScoresPresent, scoresPresent])

theorem buildDict_append (img : Image) :
    ∀ imgs : List Image,
      buildDict (imgs ++ [img]) =
        match buildDict imgs with
        | .error e => .error e
        | .ok d =>
          match extractPairs img.annotated_regions with
          | .error e => .error e
          | .ok prs =>
            .ok (d ++ [(img.location, keySort (fun p : Box × ℚ => -p.2) prs)]) := by
  intro imgs
  induction imgs with
  | nil =>
    rw [List.nil_append, buildDict_cons, buildDict_nil]
    cases he : extractPairs img.annotated_regions with
    | error e => rfl
    | ok prs => rfl
  | cons c imgs ih =>
    rw [List.cons_append, buildDict_cons, buildDict_cons, ih]
    cases hc : extractPairs c.annotated_regions with
    | error e => rfl
    | ok pc =>
      cases hbue : buildDict imgs with
      | error e => rfl
      | ok d =>
        cases hi : extractPairs img.annotated_regions with
        | error e => rfl
        | ok prs => rfl

theorem optImage_congr (sp1 sp2 : List (String × List (Box × ℚ))) (jmin t : ℚ)
    (g : Image) (h : dictGet sp1 g.location = dictGet sp2 g.location) :
    optImage sp1 jmin t g = optImage sp2 jmin t g := by
  unfold optImage
  rw [h]

theorem optTotals_congr (sp1 sp2 : List (String × List (Box × ℚ))) (jmin t : ℚ) :
    ∀ gs : List Image, (∀ g ∈ gs, dictGet sp1 g.location = dictGet sp2 g.location) →
      optTotals sp1 jmin t gs = optTotals sp2 jmin t gs := by
  intro gs
  induction gs with
  | nil => intro _; rfl
  | cons g gs ih =>
    intro h
    rw [optTotals_cons, optTotals_cons,
      optImage_congr sp1 sp2 jmin t g (h g (List.mem_cons_self g gs)),
      ih (fun x hx => h x (List.mem_cons_of_mem g hx))]

theorem optSweep_congr (sp1 sp2 : List (String × List (Box × ℚ))) (gs : List Image)
    (jmin : ℚ) (h : ∀ g ∈ gs, dictGet sp1 g.location = dictGet sp2 g.location) :
    ∀ ts : List ℚ, optSweep sp1 gs jmin ts = optSweep sp2 gs jmin ts := by
  intro ts
  induction ts with
  | nil => rfl
  | cons t ts ih =>
    rw [optSweep_cons, optSweep_cons, optTotals_congr sp1 sp2 jmin t gs h, ih]

theorem zip_append_left {α β : Type} :
    ∀ (ps : List β) (gs extra : List α), ps.length ≤ gs.length →
      (gs ++ extra).zip ps = gs.zip ps := by
  intro ps
  induction ps with
  | nil => intro gs extra _; simp
  | cons p ps ih =>
    intro gs extra hlen
    cases gs with
    | nil => simp at hlen
    | cons g gs =>
      rw [List.cons_append, List.zip_cons_cons, List.zip_cons_cons,
        ih gs extra (Nat.succ_le_succ_iff.mp hlen)]

theorem naiveSweep_congr (a1 p1 a2 p2 : Doc) (jmin : ℚ)
    (h : a1.images.zip p1.images = a2.images.zip p2.images) :
    ∀ ts : List ℚ, naiveSweep a1 p1 jmin ts = naiveSweep a2 p2 jmin ts := by
  intro ts
  induction ts with
  | nil => rfl
  | cons t ts ih =>
    rw [naiveSweep_cons, naiveSweep_cons, h, ih]

/-- C5 counterexample: a prediction-only image (location "b", one box of score
1) contributes nothing to `evaluate_pr`: the output records keep precision 1
at every threshold, whereas the claim's "full box count as FP" would force
precision 1/2. -/
theorem claim_C5_counterexample :
    evaluate_pr
      { images := [{ location := "a", annotated_regions :=
          [{ region := { xmin := 0, ymin := 0, xmax := 1, ymax := 1 },
             score := none }] }] }
      { images := [{ location := "a", annotated_regions :=
          [{ region := { xmin := 0, ymin := 0, xmax := 1, ymax := 1 },
             score := some 1 }] },
        { location := "b", annotated_regions :=
          [{ region := { xmin := 3, ymin := 3, xmax := 4, ymax := 4 },
             score := some 1 }] }] }
      1 (1/2) =
    .ok [{ precision := 1, recallRate := 1, threshold := 0 },
      { precision := 1, recallRate := 1, threshold := 1 }] := by
  norm_num [evaluate_pr, buildDict, extractPairs, thresholdsAsc,
    List.range_succ, keySort, keyInsert, optSweep, optTotals, optImage,
    dictGet, evaluate_image, filterPreds, evalCounts, stateTriple,
    matchFold, matchStep, bestMatch, withIdx, calculate_iou, mkRec,
    addCounts]

/-- C5 amended: (i) in `evaluate_pr`, a ground-truth image whose location has
no entry in the prediction dict contributes its full ground-truth box count as
FN with zero matches; (ii) a prediction image whose location matches no
ground-truth image is skipped entirely — appending it to the prediction
document leaves the output unchanged (it does NOT contribute FP); (iii)
`evaluate_pr_naive` pairs images positionally via `zip`, so ground-truth
images beyond the length of the prediction list are ignored rather than
counted as FN. -/
theorem claim_C5_amended :
    (∀ (sp : List (String × List (Box × ℚ))) (jmin t : ℚ) (g : Image),
      dictGet sp g.location = none →
      optImage sp jmin t g = .ok (0, (g.annotated_regions.length : ℤ), 0)) ∧
    (∀ (anns preds : Doc) (N : ℕ) (jmin : ℚ) (img : Image),
      img.location ∉ anns.images.map (fun g => g.location) →
      scoresPresent img.annotated_regions →
      evaluate_pr anns { images := preds.images ++ [img] } N jmin =
        evaluate_pr anns preds N jmin) ∧
    (∀ (anns preds : Doc) (N : ℕ) (jmin : ℚ) (extra : List Image),
      preds.images.length ≤ anns.images.length →
      evaluate_pr_naive { images := anns.images ++ extra } preds N jmin =
        evaluate_pr_naive anns preds N jmin) := by
  refine ⟨?_, ?_, ?_⟩
  · intro sp jmin t g h
    exact optImage_none sp jmin t g h
  · intro anns preds N jmin img hfresh hsc
    unfold evaluate_pr
    rw [show ({ images := preds.images ++ [img] } : Doc).images =
      preds.images ++ [img] from rfl]
    rw [buildDict_append img preds.images, extractPairs_of_scoresPresent _ hsc]
    cases hb : buildDict preds.images with
    | error e => rfl
    | ok sp =>
      have hsw : optSweep
          (sp ++ [(img.location,
            keySort (fun p : Box × ℚ => -p.2) (pairsOf img.annotated_regions))])
          anns.images jmin (keySort (fun x : ℚ => -x) (thresholdsAsc N)) =
          optSweep sp anns.images jmin
            (keySort (fun x : ℚ => -x) (thresholdsAsc N)) := by
        refine optSweep_congr _ _ anns.images jmin ?_ _
        intro g hg
        rw [dictGet_append_single]
        refine if_neg ?_
        intro he
        apply hfresh
        rw [show img.location = g.location from he]
        exact List.mem_map_of_mem (fun x => x.location) hg
      simp only [hsw]
  · intro anns preds N jmin extra hlen
    unfold evaluate_pr_naive
    refine naiveSweep_congr _ _ _ _ jmin ?_ _
    rw [show ({ images := anns.images ++ extra } : Doc).images =
      anns.images ++ extra from rfl]
    exact zip_append_left preds.images anns.images extra hlen

/-- Witness for C5 amended: the three behaviours at concrete inputs — a
ground-truth image with no dict entry yields `(0, |gt|, 0)`; appending a
fresh-location prediction image changes nothing; appending a trailing
ground-truth image beyond the zip range changes nothing for the naive sweep. -/
theorem claim_C5_amended_witness :
    optImage [] (1/2) 0
        { location := "z", annotated_regions :=
          [{ region := { xmin := 0, ymin := 0, xmax := 1, ymax := 1 },
             score := none }] } = .ok (0, 1, 0) ∧
    evaluate_pr
        { images := [{ location := "a", annotated_regions := [] }] }
        { images := [{ location := "a", annotated_regions := [] }] ++
            [{ location := "b", annotated_regions :=
              [{ region := { xmin := 0, ymin := 0, xmax := 1, ymax := 1 },
                 score := some 1 }] }] }
        1 (1/2) =
      evaluate_pr
        { images := [{ location := "a", annotated_regions := [] }] }
        { images := [{ location := "a", annotated_regions := [] }] } 1 (1/2) ∧
    evaluate_pr_naive
        { images := [{ location := "a", annotated_regions := [] }] ++
            [{ location := "c", annotated_regions := [] }] }
        { images := [{ location := "a", annotated_regions := [] }] } 1 (1/2) =
      evaluate_pr_naive
        { images := [{ location := "a", annotated_regions := [] }] }
        { images := [{ location := "a", annotated_regions := [] }] } 1 (1/2) := by
  refine ⟨?_, ?_, ?_⟩
  · exact claim_C5_amended.1 [] (1/2) 0 _ rfl
  · exact claim_C5_amended.2.1
      { images := [{ location := "a", annotated_regions := [] }] }
      { images := [{ location := "a", annotated_regions := [] }] } 1 (1/2)
      { location := "b", annotated_regions :=
        [{ region := { xmin := 0, ymin := 0, xmax := 1, ymax := 1 },
           score := some 1 }] }
      (by simp) (by simp [scoresPresent])
  · exact claim_C5_amended.2.2
      { images := [{ location := "a", annotated_regions := [] }] }
      { images := [{ location := "a", annotated_regions := [] }] } 1 (1/2)
      [{ location := "c", annotated_regions := [] }] (by simp)

theorem naiveTotals_nil (jmin t : ℚ) : naiveTotals jmin t [] = .ok (0, 0, 0) := rfl

theorem naiveTotals_cons (jmin t : ℚ) (gp : Image × Image)
    (rest : List (Image × Image)) :
    naiveTotals jmin t (gp :: rest) =
      match naiveImageFilter t gp.2.annotated_regions with
      | .error e => .error e
      | .ok _ =>
        match evaluate_image gp.1 gp.2 t jmin with
        | .error e => .error e
        | .ok c =>
          match naiveTotals jmin t rest with
          | .error e => .error e
          | .ok acc => .ok (addCounts c acc) := rfl

theorem forall₂_loc_map :
    ∀ (gs ps : List Image),
      List.Forall₂ (fun g p => g.location = p.location) gs ps →
      gs.map (fun g => g.location) = ps.map (fun p => p.location) := by
  intro gs ps hf
  induction hf with
  | nil => rfl
  | cons h1 _ ih => simp [h1, ih]

theorem sortedDict_keys :
    ∀ imgs : List Image,
      (sortedDict imgs).map (fun e => e.1) = imgs.map (fun p => p.location) := by
  intro imgs
  induction imgs with
  | nil => rfl
  | cons img rest ih =>
    show img.location :: (sortedDict rest).map (fun e => e.1) = _
    rw [ih, List.map_cons]

theorem optImage_eq_evaluate_image (sp : List (String × List (Box × ℚ)))
    (g p : Image) (jmin t : ℚ)
    (hsc : scoresPresent p.annotated_regions)
    (hloc : dictGet sp g.location =
      some (keySort (fun p2 : Box × ℚ => -p2.2) (pairsOf p.annotated_regions))) :
    optImage sp jmin t g = evaluate_image g p t jmin := by
  rw [optImage_val, hloc,
    evaluate_image_ok g p t jmin _ (filterPreds_of_scoresPresent t _ hsc)]
  have hsorted : ((keySort (fun p2 : Box × ℚ => -p2.2)
      (pairsOf p.annotated_regions)).filter
        (fun q => decide (t ≤ q.2))).Pairwise
      (fun x y : Box × ℚ => -x.2 ≤ -y.2) :=
    List.Pairwise.filter _ (keySort_sorted _ _)
  rw [Option.getD_some, pureFilter_eq_pairsOf_filter,
    keySort_of_sorted (fun p2 : Box × ℚ => -p2.2) _ hsorted, keySort_filter]

theorem naiveTotals_isOk (jmin t : ℚ) :
    ∀ l : List (Image × Image),
      (∀ gp ∈ l, scoresPresent gp.2.annotated_regions) →
      ∃ C, naiveTotals jmin t l = .ok C := by
  intro l
  induction l with
  | nil => intro _; exact ⟨(0, 0, 0), rfl⟩
  | cons gp rest ih =>
    intro h
    obtain ⟨dead, hdead⟩ :=
      naiveImageFilter_isOk t _ (h gp (List.mem_cons_self gp rest))
    obtain ⟨C, hC⟩ := ih (fun x hx => h x (List.mem_cons_of_mem gp hx))
    refine ⟨addCounts (evalCounts (gp.1.annotated_regions.map (fun r => r.region))
      (keySort (fun q : Box × ℚ => -q.2)
        (pureFilter t gp.2.annotated_regions)) jmin) C, ?_⟩
    rw [naiveTotals_cons, hdead,
      evaluate_image_ok gp.1 gp.2 t jmin _
        (filterPreds_of_scoresPresent t _ (h gp (List.mem_cons_self gp rest))), hC]

theorem optTotals_eq_naiveTotals (jmin t : ℚ) :
    ∀ (gs ps : List Image),
      List.Forall₂ (fun g p => g.location = p.location) gs ps →
      (gs.map (fun g => g.location)).Nodup →
      (∀ p ∈ ps, scoresPresent p.annotated_regions) →
      optTotals (sortedDict ps) jmin t gs = naiveTotals jmin t (gs.zip ps) := by
  intro gs ps hf
  induction hf with
  | nil => intro _ _; rfl
  | @cons g p gs2 ps2 h1 h2 ih =>
    intro hnd hsc
    rw [List.map_cons, List.nodup_cons] at hnd
    have hkeys : (sortedDict ps2).map (fun e => e.1) = gs2.map (fun x => x.location) := by
      rw [sortedDict_keys, ← forall₂_loc_map gs2 ps2 h2]
    have hnone : dictGet (sortedDict ps2) g.location = none := by
      refine dictGet_eq_none g.location (sortedDict ps2) ?_
      rw [hkeys]
      exact hnd.1
    have hget : dictGet (sortedDict (p :: ps2)) g.location =
        some (keySort (fun p2 : Box × ℚ => -p2.2) (pairsOf p.annotated_regions)) := by
      rw [show sortedDict (p :: ps2) =
        (p.location, keySort (fun p2 : Box × ℚ => -p2.2)
          (pairsOf p.annotated_regions)) :: sortedDict ps2 from rfl,
        dictGet_cons, hnone]
      show (if p.location = g.location then _ else none) = _
      rw [if_pos h1.symm]
    have himg : optImage (sortedDict (p :: ps2)) jmin t g = evaluate_image g p t jmin :=
      optImage_eq_evaluate_image _ g p jmin t
        (hsc p (List.mem_cons_self p ps2)) hget
    have htail : optTotals (sortedDict (p :: ps2)) jmin t gs2 =
        naiveTotals jmin t (gs2.zip ps2) := by
      rw [← ih hnd.2 (fun x hx => hsc x (List.mem_cons_of_mem p hx))]
      refine optTotals_congr _ _ jmin t gs2 ?_
      intro g2 hg2
      rw [show sortedDict (p :: ps2) =
        (p.location, keySort (fun p2 : Box × ℚ => -p2.2)
          (pairsOf p.annotated_regions)) :: sortedDict ps2 from rfl]
      refine dictGet_cons_of_mem _ _ _ ?_
      rw [hkeys]
      exact List.mem_map_of_mem (fun x => x.location) hg2
    rw [List.zip_cons_cons, optTotals_cons, naiveTotals_cons, himg, htail]
    obtain ⟨dead, hdead⟩ :=
      naiveImageFilter_isOk t _ (hsc p (List.mem_cons_self p ps2))
    rw [show ((g, p) : Image × Image).2 = p from rfl, hdead]

/-- C6 counterexample: with one ground-truth image at location "a" and one
prediction image at location "b" whose single box would perfectly match,
`evaluate_pr_naive` pairs the two images positionally via `zip` (TP = 1,
precision = recall = 1) while `evaluate_pr` looks location "a" up in the dict,
finds nothing, and reports all ground truth missed (precision = recall = 0):
the two functions give different result lists on the same documents. -/
theorem claim_C6_counterexample :
    evaluate_pr_naive
        { images := [{ location := "a", annotated_regions :=
            [{ region := { xmin := 0, ymin := 0, xmax := 1, ymax := 1 },
               score := none }] }] }
        { images := [{ location := "b", annotated_regions :=
            [{ region := { xmin := 0, ymin := 0, xmax := 1, ymax := 1 },
               score := some 1 }] }] }
        1 (1/2) ≠
      evaluate_pr
        { images := [{ location := "a", annotated_regions :=
            [{ region := { xmin := 0, ymin := 0, xmax := 1, ymax := 1 },
               score := none }] }] }
        { images := [{ location := "b", annotated_regions :=
            [{ region := { xmin := 0, ymin := 0, xmax := 1, ymax := 1 },
               score := some 1 }] }] }
        1 (1/2) := by
  norm_num [evaluate_pr, evaluate_pr_naive, naiveSweep, naiveTotals,
    naiveImageFilter, buildDict, extractPairs, thresholdsAsc, List.range_succ,
    keySort, keyInsert, optSweep, optTotals, optImage, dictGet,
    evaluate_image, filterPreds, evalCounts, stateTriple, matchFold,
    matchStep, bestMatch, withIdx, calculate_iou, mkRec, addCounts,
    List.zip_cons_cons]

/-- C6 amended: the optimized `evaluate_pr` and the naive `evaluate_pr_naive`
return identical result lists whenever the two documents are aligned — the
image lists pair up positionally with equal locations, the ground-truth
locations are distinct, and every prediction region carries a score. Without
alignment they differ, because the naive sweep pairs images by `zip` position
while the optimized sweep pairs them by location (see the counterexample). -/
theorem claim_C6_amended :
    ∀ (anns preds : Doc) (N : ℕ) (jmin : ℚ),
      List.Forall₂ (fun g p => g.location = p.location) anns.images preds.images →
      (anns.images.map (fun g => g.location)).Nodup →
      docScoresPresent preds →
      evaluate_pr anns preds N jmin = evaluate_pr_naive anns preds N jmin := by
  intro anns preds N jmin hf hnd hsc
  have hzip : ∀ gp ∈ anns.images.zip preds.images,
      scoresPresent gp.2.annotated_regions := by
    intro gp hgp
    exact hsc gp.2 (List.of_mem_zip hgp).2
  have hFn : ∀ t, naiveTotals jmin t (anns.images.zip preds.images) =
      .ok (okValue (naiveTotals jmin t (anns.images.zip preds.images))) := by
    intro t
    obtain ⟨C, hC⟩ := naiveTotals_isOk jmin t _ hzip
    rw [hC]
    rfl
  have hG : ∀ t, optTotals (sortedDict preds.images) jmin t anns.images =
      naiveTotals jmin t (anns.images.zip preds.images) := by
    intro t
    exact optTotals_eq_naiveTotals jmin t anns.images preds.images hf hnd
      (fun p hp => hsc p hp)
  have hFo : ∀ t, optTotals (sortedDict preds.images) jmin t anns.images =
      .ok (okValue (naiveTotals jmin t (anns.images.zip preds.images))) := by
    intro t
    rw [hG t]
    exact hFn t
  rw [evaluate_pr_map anns preds N jmin (sortedDict preds.images) _
    (buildDict_of_scoresPresent preds.images hsc) hFo]
  rw [show evaluate_pr_naive anns preds N jmin =
    naiveSweep anns preds jmin (thresholdsAsc N) from rfl]
  rw [naiveSweep_map anns preds jmin _ hFn (thresholdsAsc N)]

/-- Witness for C6 amended: a concrete aligned pair of documents — same single
location, distinct ground-truth locations, all prediction scores present. -/
theorem claim_C6_amended_witness :
    evaluate_pr
        { images := [{ location := "w", annotated_regions :=
            [{ region := { xmin := 0, ymin := 0, xmax := 2, ymax := 2 },
               score := none }] }] }
        { images := [{ location := "w", annotated_regions :=
            [{ region := { xmin := 0, ymin := 0, xmax := 2, ymax := 2 },
               score := some (3/5) }] }] }
        1 (1/2) =
      evaluate_pr_naive
        { images := [{ location := "w", annotated_regions :=
            [{ region := { xmin := 0, ymin := 0, xmax := 2, ymax := 2 },
               score := none }] }] }
        { images := [{ location := "w", annotated_regions :=
            [{ region := { xmin := 0, ymin := 0, xmax := 2, ymax := 2 },
               score := some (3/5) }] }] }
        1 (1/2) :=
  claim_C6_amended _ _ 1 (1/2)
    (by simp [List.forall₂_cons]) (by simp) (by simp [docScoresPresent, scoresPresent])
